import Mathlib

/-!
# licensed: generation of a Go source file embedding dependency licenses

Shallow embedding of `cmd/licensed/main.go`.

* Go strings and byte slices are lists of bytes (natural numbers below 256).
* The standard-library routines that decide what the program computes are
  transcribed from the Go sources of the 1.10 series, the toolchain generation
  of the `dep` tool that the program drives: `unicode/utf8`, `strconv.Quote`,
  `strconv.Unquote`, and the escaper that `html/template` applies to an action
  in text context.  Bit operations on bytes are written with `/` and `%`; the
  print tables of `strconv.IsPrint` above Latin-1 are a parameter.
* The collaborators of the program (command line, `dep`, file system,
  `parser.ParseDir`, `parser.ParseFile`) are the fields of `Env`, and the
  general theorems hold for every `Env`.  Runs on concrete inputs use
  `ParseFile`, which follows go/scanner and go/parser on the shape of text that
  the template produces.
* The list that dep returns is a list of pointers, each of which may be nil.
* A run ends normally, with `log.Fatalf` or with a run-time panic, and leaves
  the list of its actions on the destination.
-/

namespace Licensed

/-- A Go string or byte slice. -/
abbrev Str := List Nat

/-- Every element is a byte. -/
def IsBytes (s : Str) : Prop := ∀ b ∈ s, b < 256

instance (s : Str) : Decidable (IsBytes s) := by
  unfold IsBytes; infer_instance

/-- The bytes of an ASCII constant of the source text. -/
def lit (s : String) : Str := s.toList.map Char.toNat

/-! ## unicode/utf8 -/

def RuneError : Nat := 0xFFFD
def RuneSelf : Nat := 0x80
def MaxRune : Nat := 0x10FFFF

/-- The table `first` of package utf8 together with `acceptRanges`: for a
leading byte, the length of the sequence and the accepted range of the second
byte; `none` for ASCII and for invalid leading bytes (entries `as` and `xx`). -/
def first (b : Nat) : Option (Nat × Nat × Nat) :=
  if 0xC2 ≤ b ∧ b ≤ 0xDF then some (2, 0x80, 0xBF)
  else if b = 0xE0 then some (3, 0xA0, 0xBF)
  else if 0xE1 ≤ b ∧ b ≤ 0xEC then some (3, 0x80, 0xBF)
  else if b = 0xED then some (3, 0x80, 0x9F)
  else if 0xEE ≤ b ∧ b ≤ 0xEF then some (3, 0x80, 0xBF)
  else if b = 0xF0 then some (4, 0x90, 0xBF)
  else if 0xF1 ≤ b ∧ b ≤ 0xF3 then some (4, 0x80, 0xBF)
  else if b = 0xF4 then some (4, 0x80, 0x8F)
  else none

/-- Function `utf8.DecodeRuneInString`: the first rune of `s` and its width. -/
def DecodeRune (s : Str) : Nat × Nat :=
  match s with
  | [] => (RuneError, 0)
  | s0 :: t0 =>
    match first s0 with
    | none => if s0 < RuneSelf then (s0, 1) else (RuneError, 1)
    | some (sz, lo, hi) =>
      if s.length < sz then (RuneError, 1) else
      match t0 with
      | [] => (RuneError, 1)
      | s1 :: t1 =>
        if s1 < lo ∨ hi < s1 then (RuneError, 1)
        else if sz ≤ 2 then ((s0 % 32) * 64 + s1 % 64, 2) else
        match t1 with
        | [] => (RuneError, 1)
        | s2 :: t2 =>
          if s2 < 0x80 ∨ 0xBF < s2 then (RuneError, 1)
          else if sz ≤ 3 then ((s0 % 16) * 4096 + (s1 % 64) * 64 + s2 % 64, 3) else
          match t2 with
          | [] => (RuneError, 1)
          | s3 :: _ =>
            if s3 < 0x80 ∨ 0xBF < s3 then (RuneError, 1)
            else ((s0 % 8) * 262144 + (s1 % 64) * 4096 + (s2 % 64) * 64 + s3 % 64, 4)

/-- Function `utf8.EncodeRune`, on the `uint32` value of the rune. -/
def EncodeRune (r : Nat) : Str :=
  if r ≤ 0x7F then [r]
  else if r ≤ 0x7FF then [0xC0 + r / 64, 0x80 + r % 64]
  else if r > MaxRune ∨ (0xD800 ≤ r ∧ r ≤ 0xDFFF) then [0xEF, 0xBF, 0xBD]
  else if r ≤ 0xFFFF then [0xE0 + r / 4096, 0x80 + r / 64 % 64, 0x80 + r % 64]
  else [0xF0 + r / 262144, 0x80 + r / 4096 % 64, 0x80 + r / 64 % 64, 0x80 + r % 64]

/-- The loop of `utf8.ValidString`; the fuel bounds the number of runes. -/
def validLoop : Nat → Str → Bool
  | 0, s => s.isEmpty
  | fuel + 1, s =>
    match s with
    | [] => true
    | s0 :: t0 =>
      if s0 < RuneSelf then validLoop fuel t0
      else if DecodeRune s = (RuneError, 1) then false
      else validLoop fuel (s.drop (DecodeRune s).2)

/-- Function `utf8.ValidString`. -/
def ValidString (s : Str) : Bool := validLoop s.length s

/-! ## strconv: quoting -/

/-- Indexing of the constant `lowerhex = "0123456789abcdef"`. -/
def lowerhex (d : Nat) : Nat := if d < 10 then 48 + d else 87 + d

/-- Function `strconv.IsPrint`: explicit on Latin-1, and
given by the tables `isPrint16`, `isNotPrint16`, `isPrint32`, `isNotPrint32`
(the parameter `tbl`) above it. -/
def IsPrint (tbl : Nat → Bool) (r : Nat) : Bool :=
  if r ≤ 0xFF then
    if 0x20 ≤ r ∧ r ≤ 0x7E then true
    else if 0xA1 ≤ r ∧ r ≤ 0xFF then r != 0xAD
    else false
  else tbl r

/-- Function `appendEscapedRune` for the double quote as `quote`, `ASCIIonly = false` and
`graphicOnly = false`: the bytes appended for the rune `r`. -/
def appendEscapedRune (tbl : Nat → Bool) (r : Nat) : Str :=
  if r = 34 ∨ r = 92 then [92, r]
  else if IsPrint tbl r then EncodeRune r
  else if r = 7 then lit "\\a"
  else if r = 8 then lit "\\b"
  else if r = 12 then lit "\\f"
  else if r = 10 then lit "\\n"
  else if r = 13 then lit "\\r"
  else if r = 9 then lit "\\t"
  else if r = 11 then lit "\\v"
  else if r < 32 then lit "\\x" ++ [lowerhex (r % 256 / 16), lowerhex (r % 16)]
  else if r > MaxRune then
    lit "\\u" ++ [lowerhex (0xFFFD / 4096 % 16), lowerhex (0xFFFD / 256 % 16),
      lowerhex (0xFFFD / 16 % 16), lowerhex (0xFFFD % 16)]
  else if r < 0x10000 then
    lit "\\u" ++ [lowerhex (r / 4096 % 16), lowerhex (r / 256 % 16),
      lowerhex (r / 16 % 16), lowerhex (r % 16)]
  else
    lit "\\U" ++ [lowerhex (r / 268435456 % 16), lowerhex (r / 16777216 % 16),
      lowerhex (r / 1048576 % 16), lowerhex (r / 65536 % 16),
      lowerhex (r / 4096 % 16), lowerhex (r / 256 % 16),
      lowerhex (r / 16 % 16), lowerhex (r % 16)]

/-- The rune and width that one iteration of `appendQuotedWith` works on. -/
def quoteRune (s : Str) : Nat × Nat :=
  match s with
  | [] => (0, 1)
  | s0 :: _ => if s0 ≥ RuneSelf then DecodeRune s else (s0, 1)

/-- The bytes one iteration of `appendQuotedWith` appends. -/
def quoteStep (tbl : Nat → Bool) (s : Str) : Str :=
  if (quoteRune s).2 = 1 ∧ (quoteRune s).1 = RuneError then
    lit "\\x" ++ [lowerhex (s.headD 0 / 16), lowerhex (s.headD 0 % 16)]
  else appendEscapedRune tbl (quoteRune s).1

/-- The loop of `appendQuotedWith`: `for width := 0; len(s) > 0; s = s[width:]`. -/
def quoteLoop (tbl : Nat → Bool) : Nat → Str → Str
  | 0, _ => []
  | fuel + 1, s =>
    match s with
    | [] => []
    | _ :: _ => quoteStep tbl s ++ quoteLoop tbl fuel (s.drop (quoteRune s).2)

/-- Function `strconv.Quote`. -/
def Quote (tbl : Nat → Bool) (s : Str) : Str :=
  34 :: (quoteLoop tbl s.length s ++ [34])

/-! ## strconv: unquoting -/

/-- Function `unhex`. -/
def unhex (c : Nat) : Option Nat :=
  if 48 ≤ c ∧ c ≤ 57 then some (c - 48)
  else if 97 ≤ c ∧ c ≤ 102 then some (c - 97 + 10)
  else if 65 ≤ c ∧ c ≤ 70 then some (c - 65 + 10)
  else none

/-- The digit loop of `UnquoteChar` for `\x`, `\u`, `\U`: `v = v<<4 | x` on a
32-bit rune, kept as its `uint32` bit pattern. -/
def hexLoop : Nat → Str → Nat → Option (Nat × Str)
  | 0, s, v => some (v, s)
  | n + 1, s, v =>
    match s with
    | [] => none
    | c :: t =>
      match unhex c with
      | none => none
      | some x => hexLoop n t ((v * 16 + x) % 4294967296)

/-- The digit loop of `UnquoteChar` for octal escapes. -/
def octLoop : Nat → Str → Nat → Option (Nat × Str)
  | 0, s, v => some (v, s)
  | n + 1, s, v =>
    match s with
    | [] => none
    | c :: t => if c < 48 ∨ c > 55 then none else octLoop n t (v * 8 + (c - 48))

/-- Function `strconv.UnquoteChar`: value (as `uint32` bit pattern of the
rune), multibyte flag and tail, or `none` for `ErrSyntax`.  It is only called
on a non-empty string. -/
def UnquoteChar (s : Str) (quote : Nat) : Option (Nat × Bool × Str) :=
  match s with
  | [] => none
  | c0 :: t0 =>
    if c0 = quote ∧ (quote = 39 ∨ quote = 34) then none
    else if c0 ≥ RuneSelf then some ((DecodeRune s).1, true, s.drop (DecodeRune s).2)
    else if c0 ≠ 92 then some (c0, false, t0)
    else
      match t0 with
      | [] => none
      | c :: s =>
        if c = 97 then some (7, false, s)
        else if c = 98 then some (8, false, s)
        else if c = 102 then some (12, false, s)
        else if c = 110 then some (10, false, s)
        else if c = 114 then some (13, false, s)
        else if c = 116 then some (9, false, s)
        else if c = 118 then some (11, false, s)
        else if c = 120 ∨ c = 117 ∨ c = 85 then
          let n := if c = 120 then 2 else if c = 117 then 4 else 8
          if s.length < n then none else
          match hexLoop n s 0 with
          | none => none
          | some (v, s) =>
            if c = 120 then some (v, false, s)
            -- `v > utf8.MaxRune` on the signed rune
            else if v < 2147483648 ∧ v > MaxRune then none
            else some (v, true, s)
        else if 48 ≤ c ∧ c ≤ 55 then
          if s.length < 2 then none else
          match octLoop 2 s (c - 48) with
          | none => none
          | some (v, s) => if v > 255 then none else some (v, false, s)
        else if c = 92 then some (92, false, s)
        else if c = 39 ∨ c = 34 then
          if c ≠ quote then none else some (c, false, s)
        else none

/-- The decoding loop of `Unquote`; `buf` is the output so far. -/
def unquoteLoop (quote : Nat) : Nat → Str → Str → Option Str
  | 0, s, buf => if s.isEmpty then some buf else none
  | fuel + 1, s, buf =>
    match s with
    | [] => some buf
    | _ :: _ =>
      match UnquoteChar s quote with
      | none => none
      | some (c, multibyte, ss) =>
        -- `c < utf8.RuneSelf` on the signed rune
        let out := if c < RuneSelf ∨ c ≥ 2147483648 ∨ multibyte = false
          then [c % 256] else EncodeRune c
        if quote = 39 ∧ ss ≠ [] then none
        else unquoteLoop quote fuel ss (buf ++ out)

/-- Function `strconv.Unquote`; `none` stands for the error `ErrSyntax`. -/
def Unquote (s : Str) : Option Str :=
  let n := s.length
  if n < 2 then none else
  let quote := s.headD 0
  if quote ≠ s.getLastD 0 then none else
  let s := (s.drop 1).take (n - 2)
  if quote = 96 then
    if 96 ∈ s then none
    else if 13 ∈ s then some (s.filter (fun b => b != 13))
    else some s
  else if quote ≠ 34 ∧ quote ≠ 39 then none
  else if 10 ∈ s then none
  else if 92 ∉ s ∧ quote ∉ s ∧
      ((quote = 34 ∧ ValidString s = true) ∨
       (quote = 39 ∧ (DecodeRune s).2 = s.length ∧
          ((DecodeRune s).1 ≠ RuneError ∨ (DecodeRune s).2 ≠ 1))) then some s
  else unquoteLoop quote s.length s []

/-! ## Auxiliary notions for the round trip of quoting -/

/-- What the loop of `Unquote` appends for a decoded character. -/
def emit (c : Nat) (multibyte : Bool) : Str :=
  if c < RuneSelf ∨ c ≥ 2147483648 ∨ multibyte = false then [c % 256] else EncodeRune c

/-- The first rune of `s` is a well-formed multi-byte sequence. -/
def GoodRune (s : Str) : Prop :=
  128 ≤ (DecodeRune s).1 ∧ (DecodeRune s).1 ≤ MaxRune ∧
  ¬ (0xD800 ≤ (DecodeRune s).1 ∧ (DecodeRune s).1 ≤ 0xDFFF) ∧
  2 ≤ (DecodeRune s).2 ∧ (s.take (DecodeRune s).2).length = (DecodeRune s).2 ∧
  EncodeRune (DecodeRune s).1 = s.take (DecodeRune s).2 ∧
  (∀ tail, DecodeRune (s.take (DecodeRune s).2 ++ tail) = DecodeRune s) ∧
  (∀ b ∈ s.take (DecodeRune s).2, 128 ≤ b)

/-- One step of the unquoting loop undoes one step of the quoting loop. -/
def StepOK (chunk orig : Str) : Prop :=
  (∀ tail, ∃ c mb, UnquoteChar (chunk ++ tail) 34 = some (c, mb, tail) ∧ emit c mb = orig) ∧
  10 ∉ chunk ∧ chunk ≠ [] ∧ (92 ∉ chunk → chunk = orig)

/-! ## html/template: the escaper of the text context -/

/-- The table `htmlReplacementTable`; its length is 63. -/
def htmlReplacementTable (r : Nat) : Str :=
  if r = 0 then [0xEF, 0xBF, 0xBD]
  else if r = 34 then lit "&#34;"
  else if r = 38 then lit "&amp;"
  else if r = 39 then lit "&#39;"
  else if r = 43 then lit "&#43;"
  else if r = 60 then lit "&lt;"
  else if r = 62 then lit "&gt;"
  else []

/-- The loop of `htmlReplacer(s, htmlReplacementTable, true)`: a rune with a
non-empty replacement is replaced, every other rune is copied with the width
it has in the input. -/
def htmlReplacer : Nat → Str → Str
  | 0, _ => []
  | fuel + 1, s =>
    match s with
    | [] => []
    | _ :: _ =>
      let r := (DecodeRune s).1
      let w := (DecodeRune s).2
      let piece := if r < 63 ∧ htmlReplacementTable r ≠ [] then htmlReplacementTable r
        else s.take w
      piece ++ htmlReplacer fuel (s.drop w)

/-- Function `htmlEscaper` applied to a plain string. -/
def htmlEscaper (s : Str) : Str := htmlReplacer s.length s

/-- Decimal formatting of an `int`, as `fmt.Sprint` does for `NumPackages`. -/
def itoa (n : Nat) : Str := lit (Nat.repr n)

/-! ## Types and template of the program -/

structure depEntry where
  ProjectRoot : Str
  LicenseFile : Str
  deriving DecidableEq, Repr

structure templateContext where
  PackageName : Str
  NumPackages : Nat
  Packages : List depEntry
  FunctionName : Str
  TypeName : Str
  deriving DecidableEq, Repr

/-- One iteration of `range .Packages` in `fileTmpl`; the trim marker of the
`range` action removes the line break that follows it. -/
def fileTmplEntry (c : templateContext) (p : depEntry) : Str :=
  lit "result = append(result, " ++ htmlEscaper c.TypeName ++ lit "\x7bPackage: \"" ++
    htmlEscaper p.ProjectRoot ++ lit "\", LicenseText: \"\"\x7d)\n\t"

/-- Execution of the template `fileTmpl` by html/template: the template
text holds no markup, so every action is in the text context and its value
passes through `htmlEscaper`. -/
def fileTmpl (c : templateContext) : Str :=
  lit "package " ++ htmlEscaper c.PackageName ++ lit "\ntype " ++ htmlEscaper c.TypeName ++
    lit " struct \x7b\n\tPackage string\n\tLicenseText string\n\x7d\n\nfunc " ++
    htmlEscaper c.FunctionName ++ lit "() []" ++ htmlEscaper c.TypeName ++
    lit " \x7b\n\tresult := make([]" ++ htmlEscaper c.TypeName ++ lit ", 0, " ++
    htmlEscaper (itoa c.NumPackages) ++ lit ")\n\t" ++
    (c.Packages.map (fileTmplEntry c)).flatten ++ lit "\n\treturn result\n\x7d\n"

/-! ## go/ast and go/token, the part the program touches -/

inductive Kind where
  | INT
  | STRING
  deriving DecidableEq, Repr

inductive AssignTok where
  | DEFINE
  | ASSIGN
  deriving DecidableEq, Repr

inductive Expr where
  | Ident (Name : Str)
  | BasicLit (Kind : Kind) (Value : Str)
  | CompositeLit (Typ : Expr) (Elts : List Expr)
  | KeyValueExpr (Key : Expr) (Value : Expr)
  | CallExpr (Fun : Expr) (Args : List Expr)
  | ArrayType (Elt : Expr)
  | StructType (Fields : List (Str × Expr))

inductive Stmt where
  | AssignStmt (Lhs : List Expr) (Tok : AssignTok) (Rhs : List Expr)
  | ReturnStmt (Results : List Expr)
  | ExprStmt (X : Expr)

inductive Decl where
  | TypeDecl (Name : Str) (Typ : Expr)
  | FuncDecl (Name : Str) (Results : List Expr) (Body : Option (List Stmt))

structure File where
  Name : Str
  Decls : List Decl

/-! ## go/scanner and go/parser on the token shapes of the skeleton

The scanner follows go/scanner for the tokens the template text can produce:
identifiers and keywords (ASCII letters, digits and `_`), decimal integers,
interpreted string literals, the operators `( ) [ ] { } , : := = ;` and the
automatic semicolons.  Every other input (comments, other operators and
literals, non-ASCII characters outside string literals) is reported as an
error here.  The parser accepts the declarations and statements of the
skeleton and builds the tree go/parser builds for them. -/

inductive Token where
  | IDENT (name : Str)
  | KEYWORD (name : Str)
  | INT (value : Str)
  | STRING (value : Str)
  | LPAREN
  | RPAREN
  | LBRACK
  | RBRACK
  | LBRACE
  | RBRACE
  | COMMA
  | COLON
  | DEFINE
  | ASSIGN
  | SEMICOLON
  deriving DecidableEq, Repr

/-- The keywords of Go. -/
def keywords : List Str :=
  [lit "break", lit "case", lit "chan", lit "const", lit "continue", lit "default",
   lit "defer", lit "else", lit "fallthrough", lit "for", lit "func", lit "go", lit "goto",
   lit "if", lit "import", lit "interface", lit "map", lit "package", lit "range",
   lit "return", lit "select", lit "struct", lit "switch", lit "type", lit "var"]

/-- Function `isLetter` of go/scanner on ASCII. -/
def isLetter (c : Nat) : Bool :=
  (97 ≤ c && c ≤ 122) || (65 ≤ c && c ≤ 90) || c == 95

/-- Function `isDigit` of go/scanner on ASCII. -/
def isDecimal (c : Nat) : Bool := 48 ≤ c && c ≤ 57

/-- Function `digitVal` of go/scanner; 16 for a character that is no digit. -/
def digitVal (c : Nat) : Nat :=
  if 48 ≤ c ∧ c ≤ 57 then c - 48
  else if 97 ≤ c ∧ c ≤ 102 then c - 97 + 10
  else if 65 ≤ c ∧ c ≤ 70 then c - 65 + 10
  else 16

/-- The digit loop of `scanEscape`: `n` digits in the given base. -/
def scanDigits : Nat → Nat → Str → Nat → Option (Nat × Str)
  | 0, _, s, x => some (x, s)
  | n + 1, base, s, x =>
    match s with
    | [] => none
    | c :: t => if digitVal c ≥ base then none else scanDigits n base t (x * base + digitVal c)

/-- Method `scanEscape` for the double quote, entered after the backslash: the rest of the
input after the escape, or `none` when the scanner reports an error. -/
def scanEscape (s : Str) : Option Str :=
  match s with
  | [] => none
  | c :: t =>
    if c = 97 ∨ c = 98 ∨ c = 102 ∨ c = 110 ∨ c = 114 ∨ c = 116 ∨ c = 118 ∨ c = 92 ∨ c = 34
    then some t
    else
      let spec : Option (Nat × Nat × Nat × Str) :=
        if 48 ≤ c ∧ c ≤ 55 then some (3, 8, 255, s)
        else if c = 120 then some (2, 16, 255, t)
        else if c = 117 then some (4, 16, MaxRune, t)
        else if c = 85 then some (8, 16, MaxRune, t)
        else none
      match spec with
      | none => none
      | some (n, base, max, s1) =>
        match scanDigits n base s1 0 with
        | none => none
        | some (x, s2) =>
          if x > max ∨ (0xD800 ≤ x ∧ x < 0xE000) then none else some s2

/-- Method `scanString`, entered after the opening quote; `acc` is the
literal text read so far.  Returns the literal text (quotes included) and the
rest of the input.  Reading a character fails on a NUL byte, on an invalid
UTF-8 encoding and on a byte order mark, as `next` does. -/
def scanString : Nat → Str → Str → Option (Str × Str)
  | 0, _, _ => none
  | fuel + 1, s, acc =>
    match s with
    | [] => none
    | c :: t =>
      if c = 10 then none
      else if c = 34 then some (acc ++ [34], t)
      else if c = 92 then
        match scanEscape t with
        | none => none
        | some t1 => scanString fuel t1 (acc ++ s.take (s.length - t1.length))
      else if c = 0 then none
      else if c < RuneSelf then scanString fuel t (acc ++ [c])
      else if DecodeRune s = (RuneError, 1) ∨ (DecodeRune s).1 = 0xFEFF then none
      else scanString fuel (s.drop (DecodeRune s).2) (acc ++ s.take (DecodeRune s).2)

/-- The longest run of identifier characters at the head of the input. -/
def scanIdentifier : Str → Str × Str
  | [] => ([], [])
  | c :: t =>
    if isLetter c || isDecimal c then ((c :: (scanIdentifier t).1), (scanIdentifier t).2)
    else ([], c :: t)

/-- The longest run of decimal digits at the head of the input. -/
def scanNumber : Str → Str × Str
  | [] => ([], [])
  | c :: t =>
    if isDecimal c then ((c :: (scanNumber t).1), (scanNumber t).2)
    else ([], c :: t)

/-- Method `Scan` run to the end of the file: the token sequence, or `none`
when an error is reported.  `insertSemi` is the flag of the scanner of the same
name. -/
def scanTokens : Nat → Str → Bool → Option (List Token)
  | 0, _, _ => none
  | fuel + 1, s, insertSemi =>
    match s with
    | [] => if insertSemi then some [Token.SEMICOLON] else some []
    | c :: t =>
      if c = 32 ∨ c = 9 ∨ c = 13 ∨ (c = 10 ∧ insertSemi = false) then scanTokens fuel t insertSemi
      else if c = 10 then (scanTokens fuel t false).map (fun l => Token.SEMICOLON :: l)
      else if isLetter c then
        let name := (scanIdentifier s).1
        let rest := (scanIdentifier s).2
        if rest.length ≥ s.length then none
        else if rest.headD 0 ≥ RuneSelf then none
        else if name ∈ keywords then
          (scanTokens fuel rest
            (name = lit "break" ∨ name = lit "continue" ∨ name = lit "fallthrough" ∨
              name = lit "return")).map (fun l => Token.KEYWORD name :: l)
        else (scanTokens fuel rest true).map (fun l => Token.IDENT name :: l)
      else if isDecimal c then
        let num := (scanNumber s).1
        let rest := (scanNumber s).2
        if rest.length ≥ s.length then none
        else if c = 48 ∧ num ≠ [48] then none
        else if isLetter (rest.headD 0) ∨ rest.headD 0 = 46 ∨ rest.headD 0 = 39 ∨
          rest.headD 0 ≥ RuneSelf then none
        else (scanTokens fuel rest true).map (fun l => Token.INT num :: l)
      else if c = 34 then
        match scanString s.length t [34] with
        | none => none
        | some (v, rest) =>
          if rest.length ≥ s.length then none
          else (scanTokens fuel rest true).map (fun l => Token.STRING v :: l)
      else if c = 58 then
        match t with
        | 61 :: t1 => (scanTokens fuel t1 false).map (fun l => Token.DEFINE :: l)
        | _ => (scanTokens fuel t false).map (fun l => Token.COLON :: l)
      else if c = 61 then
        if t.headD 0 = 61 then none
        else (scanTokens fuel t false).map (fun l => Token.ASSIGN :: l)
      else if c = 40 then (scanTokens fuel t false).map (fun l => Token.LPAREN :: l)
      else if c = 41 then (scanTokens fuel t true).map (fun l => Token.RPAREN :: l)
      else if c = 91 then (scanTokens fuel t false).map (fun l => Token.LBRACK :: l)
      else if c = 93 then (scanTokens fuel t true).map (fun l => Token.RBRACK :: l)
      else if c = 123 then (scanTokens fuel t false).map (fun l => Token.LBRACE :: l)
      else if c = 125 then (scanTokens fuel t true).map (fun l => Token.RBRACE :: l)
      else if c = 44 then (scanTokens fuel t false).map (fun l => Token.COMMA :: l)
      else if c = 59 then (scanTokens fuel t false).map (fun l => Token.SEMICOLON :: l)
      else none

/-- The elements of a composite literal up to its closing brace: a list of
`key: value` pairs whose values are identifiers or basic literals. -/
def parseElementList : List Token → Option (List Expr × List Token)
  | Token.RBRACE :: rest => some ([], rest)
  | Token.IDENT k :: Token.COLON :: v :: rest =>
    let value : Option Expr :=
      match v with
      | Token.IDENT n => some (Expr.Ident n)
      | Token.INT n => some (Expr.BasicLit Kind.INT n)
      | Token.STRING n => some (Expr.BasicLit Kind.STRING n)
      | _ => none
    match value, rest with
    | some e, Token.COMMA :: rest1 =>
      (parseElementList rest1).map (fun r => (Expr.KeyValueExpr (Expr.Ident k) e :: r.1, r.2))
    | some e, Token.RBRACE :: rest1 => some ([Expr.KeyValueExpr (Expr.Ident k) e], rest1)
    | _, _ => none
  | _ => none

/-- One operand of a call: an identifier, a basic literal, a slice type or a
composite literal of a named type. -/
def parseOperand : List Token → Option (Expr × List Token)
  | Token.IDENT n :: Token.LBRACE :: rest =>
    (parseElementList rest).map (fun r => (Expr.CompositeLit (Expr.Ident n) r.1, r.2))
  | Token.IDENT n :: rest => some (Expr.Ident n, rest)
  | Token.INT n :: rest => some (Expr.BasicLit Kind.INT n, rest)
  | Token.STRING n :: rest => some (Expr.BasicLit Kind.STRING n, rest)
  | Token.LBRACK :: Token.RBRACK :: Token.IDENT n :: rest =>
    some (Expr.ArrayType (Expr.Ident n), rest)
  | _ => none

/-- The arguments of a call up to its closing parenthesis. -/
def parseArguments : Nat → List Token → Option (List Expr × List Token)
  | 0, _ => none
  | fuel + 1, toks =>
    match toks with
    | Token.RPAREN :: rest => some ([], rest)
    | _ =>
      match parseOperand toks with
      | none => none
      | some (e, Token.COMMA :: rest) =>
        (parseArguments fuel rest).map (fun r => (e :: r.1, r.2))
      | some (e, Token.RPAREN :: rest) => some ([e], rest)
      | some _ => none

/-- A call `f(args)` of a function named by an identifier. -/
def parseCall : List Token → Option (Expr × List Token)
  | Token.IDENT f :: Token.LPAREN :: rest =>
    (parseArguments rest.length rest).map (fun r => (Expr.CallExpr (Expr.Ident f) r.1, r.2))
  | _ => none

/-- One simple statement followed by its semicolon. -/
def parseStmt : List Token → Option (Stmt × List Token)
  | Token.IDENT x :: Token.DEFINE :: rest =>
    match parseCall rest with
    | some (e, Token.SEMICOLON :: rest1) =>
      some (Stmt.AssignStmt [Expr.Ident x] AssignTok.DEFINE [e], rest1)
    | _ => none
  | Token.IDENT x :: Token.ASSIGN :: rest =>
    match parseCall rest with
    | some (e, Token.SEMICOLON :: rest1) =>
      some (Stmt.AssignStmt [Expr.Ident x] AssignTok.ASSIGN [e], rest1)
    | _ => none
  | Token.KEYWORD k :: Token.IDENT x :: Token.SEMICOLON :: rest =>
    if k = lit "return" then some (Stmt.ReturnStmt [Expr.Ident x], rest) else none
  | _ => none

/-- The statement list of a block up to its closing brace. -/
def parseStmtList : Nat → List Token → Option (List Stmt × List Token)
  | 0, _ => none
  | fuel + 1, toks =>
    match toks with
    | Token.RBRACE :: rest => some ([], rest)
    | _ =>
      match parseStmt toks with
      | none => none
      | some (st, rest) => (parseStmtList fuel rest).map (fun r => (st :: r.1, r.2))

/-- The field list of a struct type up to its closing brace: fields of one
name and a named type. -/
def parseFieldList : List Token → Option (List (Str × Expr) × List Token)
  | Token.RBRACE :: rest => some ([], rest)
  | Token.IDENT f :: Token.IDENT t :: Token.SEMICOLON :: rest =>
    (parseFieldList rest).map (fun r => ((f, Expr.Ident t) :: r.1, r.2))
  | _ => none

/-- A source file of the shape of the skeleton: package clause, one struct type
declaration and one function without parameters returning a slice. -/
def parseTokens : List Token → Option File
  | Token.KEYWORD p :: Token.IDENT pkg :: Token.SEMICOLON ::
    Token.KEYWORD t :: Token.IDENT tname :: Token.KEYWORD s :: Token.LBRACE :: rest =>
    if p ≠ lit "package" ∨ t ≠ lit "type" ∨ s ≠ lit "struct" ∨ pkg = lit "_" then none else
    match parseFieldList rest with
    | some (fields, Token.SEMICOLON :: Token.KEYWORD f :: Token.IDENT fname :: Token.LPAREN ::
        Token.RPAREN :: Token.LBRACK :: Token.RBRACK :: Token.IDENT res :: Token.LBRACE ::
        rest1) =>
      if f ≠ lit "func" then none else
      match parseStmtList rest1.length rest1 with
      | some (body, [Token.SEMICOLON]) =>
        some { Name := pkg,
               Decls := [Decl.TypeDecl tname (Expr.StructType fields),
                         Decl.FuncDecl fname [Expr.ArrayType (Expr.Ident res)] (some body)] }
      | _ => none
    | _ => none
  | _ => none

/-- Function `parser.ParseFile(fileset, "", src, 0)` on the fragment above;
`none` stands for a non-nil error. -/
def ParseFile (src : Str) : Option File :=
  match scanTokens (src.length + 1) src false with
  | none => none
  | some toks => parseTokens toks

/-- The call `parser.ParseFile(fileset, "", src, 0)` as a collaborator of the
program, given by `ParseFile`. -/
def goParseFile (src : Str) : Except Str File :=
  match ParseFile src with
  | some file => Except.ok file
  | none => Except.error (lit "syntax error")

/-- A Go identifier of ASCII letters, digits and `_` that is no keyword: the
form of a package name that `parser.ParseDir` can return for source written
in ASCII. -/
def IsIdentifier (s : Str) : Prop :=
  isLetter (s.headD 0) = true ∧ (∀ b ∈ s, (isLetter b || isDecimal b) = true) ∧
    s ∉ keywords

instance (s : Str) : Decidable (IsIdentifier s) := by
  unfold IsIdentifier; infer_instance

/-! ## The program -/

/-- How a computation of the program ends: with a value, with `log.Fatalf`
(diagnostic on the error stream, exit status 1), or with a run-time panic
(nil dereference, failed type assertion, index out of range). -/
inductive Res (α : Type) where
  | ok (a : α)
  | fatal (msg : Str)
  | panic
  deriving DecidableEq

/-- Whether a computation ended with a value. -/
def Res.isOk {α : Type} : Res α → Bool
  | Res.ok _ => true
  | _ => false

/-- Whether a computation ended with a run-time panic. -/
def Res.isPanic {α : Type} : Res α → Bool
  | Res.panic => true
  | _ => false

/-- The package-level scope `file.Scope` that go/parser fills while parsing:
the first declaration of a name wins, the blank identifier is never entered,
and functions named `init` are not entered. -/
def scopeLookup : List Decl → Str → Option Decl
  | [], _ => none
  | Decl.TypeDecl n t :: rest, name =>
    if n = name ∧ n ≠ lit "_" then some (Decl.TypeDecl n t) else scopeLookup rest name
  | Decl.FuncDecl n r b :: rest, name =>
    if n = name ∧ n ≠ lit "_" ∧ n ≠ lit "init" then some (Decl.FuncDecl n r b)
    else scopeLookup rest name

/-- The map `pkgMap` after the loop over the dependencies: a later entry of
the same `ProjectRoot` overwrites an earlier one; `none` is the nil pointer a
missing key yields. -/
def pkgMapLookup : List depEntry → Str → Option depEntry
  | [], _ => none
  | dep :: rest, key =>
    match pkgMapLookup rest key with
    | some d => some d
    | none => if dep.ProjectRoot = key then some dep else none

/-- The body of the innermost loop of `main` (lines 127-144) for one
right-hand side expression `e`: the expression after the assignment to
`info.Elts[1].(*ast.KeyValueExpr).Value`. -/
def injectExpr (tbl : Nat → Bool) (readFile : Str → Except Str Str)
    (pkgMap : List depEntry) (e : Expr) : Res Expr :=
  match e with
  | Expr.CallExpr fn args =>
    match fn with
    | Expr.Ident name =>
      if name = lit "append" then
        match args.getLast? with
        | some (Expr.CompositeLit typ elts) =>
          match elts with
          | Expr.KeyValueExpr key0 (Expr.BasicLit kind0 value0) :: elts1 =>
            match Unquote value0 with
            | none => Res.fatal (lit "Failed to unquote package name")
            | some projectRoot =>
              match pkgMapLookup pkgMap projectRoot with
              | none => Res.panic
              | some dep =>
                match readFile dep.LicenseFile with
                | Except.error err =>
                  Res.fatal (lit "Failed to read license of " ++ projectRoot ++ lit ": " ++ err)
                | Except.ok data =>
                  match elts1 with
                  | Expr.KeyValueExpr key1 _ :: elts2 =>
                    Res.ok (Expr.CallExpr fn (args.dropLast ++
                      [Expr.CompositeLit typ
                        (Expr.KeyValueExpr key0 (Expr.BasicLit kind0 value0) ::
                          Expr.KeyValueExpr key1
                            (Expr.BasicLit Kind.STRING (Quote tbl data)) :: elts2)]))
                  | _ => Res.panic
          | _ => Res.panic
        | _ => Res.panic
      else Res.ok e
    | _ => Res.panic
  | _ => Res.ok e

/-- The loop `for _, e := range st.Rhs`. -/
def injectExprs (tbl : Nat → Bool) (readFile : Str → Except Str Str)
    (pkgMap : List depEntry) : List Expr → Res (List Expr)
  | [] => Res.ok []
  | e :: rest =>
    match injectExpr tbl readFile pkgMap e with
    | Res.ok e1 =>
      match injectExprs tbl readFile pkgMap rest with
      | Res.ok rest1 => Res.ok (e1 :: rest1)
      | Res.fatal m => Res.fatal m
      | Res.panic => Res.panic
    | Res.fatal m => Res.fatal m
    | Res.panic => Res.panic

/-- The type switch on a statement (lines 124-146). -/
def injectStmt (tbl : Nat → Bool) (readFile : Str → Except Str Str)
    (pkgMap : List depEntry) (st : Stmt) : Res Stmt :=
  match st with
  | Stmt.AssignStmt lhs tok rhs =>
    match injectExprs tbl readFile pkgMap rhs with
    | Res.ok rhs1 => Res.ok (Stmt.AssignStmt lhs tok rhs1)
    | Res.fatal m => Res.fatal m
    | Res.panic => Res.panic
  | _ => Res.ok st

/-- The loop `for _, stmt := range obj.Decl.(*ast.FuncDecl).Body.List`. -/
def injectStmts (tbl : Nat → Bool) (readFile : Str → Except Str Str)
    (pkgMap : List depEntry) : List Stmt → Res (List Stmt)
  | [] => Res.ok []
  | st :: rest =>
    match injectStmt tbl readFile pkgMap st with
    | Res.ok st1 =>
      match injectStmts tbl readFile pkgMap rest with
      | Res.ok rest1 => Res.ok (st1 :: rest1)
      | Res.fatal m => Res.fatal m
      | Res.panic => Res.panic
    | Res.fatal m => Res.fatal m
    | Res.panic => Res.panic

/-- The declarations of the file after the body of the function that
`file.Scope.Lookup(functionName)` denotes has been replaced by `body`: the
update in place through `obj.Decl`. -/
def setBody : List Decl → Str → List Stmt → List Decl
  | [], _, _ => []
  | Decl.TypeDecl n t :: rest, name, body =>
    if n = name ∧ n ≠ lit "_" then Decl.TypeDecl n t :: rest
    else Decl.TypeDecl n t :: setBody rest name body
  | Decl.FuncDecl n r b :: rest, name, body =>
    if n = name ∧ n ≠ lit "_" ∧ n ≠ lit "init" then Decl.FuncDecl n r (some body) :: rest
    else Decl.FuncDecl n r b :: setBody rest name body

/-- Lines 119-147 of `main`: look the generated function up and inject the
license texts into its body. -/
def inject (tbl : Nat → Bool) (readFile : Str → Except Str Str)
    (pkgMap : List depEntry) (functionName : Str) (file : File) : Res File :=
  match scopeLookup file.Decls functionName with
  | none => Res.fatal (lit "Failed to find generated function")
  | some (Decl.TypeDecl _ _) => Res.panic
  | some (Decl.FuncDecl _ _ none) => Res.panic
  | some (Decl.FuncDecl _ _ (some body)) =>
    match injectStmts tbl readFile pkgMap body with
    | Res.ok body1 => Res.ok { file with Decls := setBody file.Decls functionName body1 }
    | Res.fatal m => Res.fatal m
    | Res.panic => Res.panic

/-- A package in the result of `parser.ParseDir`; the program reads `Name`. -/
structure Package where
  Name : Str
  deriving DecidableEq, Repr

/-- Where `printer.Fprint` writes. -/
inductive Dest where
  | stdout
  | file (path : Str)
  deriving DecidableEq, Repr

/-- The actions of the program on the destination, in order. -/
inductive Effect where
  /-- The call `os.OpenFile(path, O_CREATE|O_TRUNC|O_WRONLY, 0600)`; on
  success the file at `path` exists and is empty. -/
  | openFile (path : Str) (succeeded : Bool)
  /-- The call `printer.Fprint(dst, fileset, file)`. -/
  | fprint (dst : Dest) (file : File)

/-- The command line and the collaborators of one run.  A directory is the
list of its path elements below the file system root. -/
structure Env where
  /-- Flag `-output`. -/
  outputFilePath : Str
  /-- Flag `-func`. -/
  functionName : Str
  /-- Flag `-type`. -/
  typeName : Str
  /-- Result of `exec.LookPath("dep")`. -/
  lookPath : Except Str Str
  /-- Result of `filepath.Abs(".")`. -/
  abs : Except Str (List Str)
  /-- Function `exists`: whether `os.Stat` succeeds on a path. -/
  statOk : List Str → Bool
  /-- Running `dep status --json` in a directory: the error of `cmd.Run`, or
  the standard output. -/
  runDep : Str → List Str → Except Str Str
  /-- Decoding the standard output of dep as a JSON list into `[]*depEntry`;
  `none` is the nil pointer that a JSON `null` element leaves. -/
  decode : Str → Except Str (List (Option depEntry))
  /-- The call `filepath.Glob(filepath.Join(rootDir, "vendor", root, "LICENSE*"))`
  as a function of `rootDir` and `root`. -/
  glob : List Str → Str → Except Str (List Str)
  /-- The call `parser.ParseDir(fileset, dir, nil, 0)`: the packages with their
  map keys, in the order in which `range` visits the map. -/
  parseDir : Str → Except Str (List (Str × Package))
  /-- The call `parser.ParseFile(fileset, "", src, 0)`. -/
  parseFile : Str → Except Str File
  /-- The tables of `unicode.IsPrint` above Latin-1. -/
  isPrintTable : Nat → Bool
  /-- The call `ioutil.ReadFile` on a non-empty file name. -/
  readFile : Str → Except Str Str
  /-- Whether `os.OpenFile` for writing succeeds, and its error otherwise. -/
  openFile : Str → Except Str Unit

/-- Function `ioutil.ReadFile`: opening the empty file name fails. -/
def ReadFile (env : Env) (name : Str) : Except Str Str :=
  if name = [] then Except.error (lit "open : no such file or directory")
  else env.readFile name

/-- The loop of `findRootFolder` on the path elements of `p` in reverse
order: `filepath.Dir` drops the last element and is the identity on the
root. -/
def findRootLoop (env : Env) : List Str → Except Str (List Str)
  | [] =>
    if env.statOk [lit "vendor"] then Except.ok []
    else Except.error (lit "no root directory found")
  | last :: up =>
    if env.statOk ((last :: up).reverse ++ [lit "vendor"]) then Except.ok (last :: up).reverse
    else findRootLoop env up

/-- Function `findRootFolder(".")`. -/
def findRootFolder (env : Env) : Except Str (List Str) :=
  match env.abs with
  | Except.error err => Except.error err
  | Except.ok p => findRootLoop env p.reverse

/-- Function `getDependencies`. -/
def getDependencies (env : Env) (rootDir : List Str) (depPath : Str) :
    Except Str (List (Option depEntry)) :=
  match env.runDep depPath rootDir with
  | Except.error err => Except.error err
  | Except.ok buffer =>
    match env.decode buffer with
    | Except.error err => Except.error err
    | Except.ok dependencies => Except.ok dependencies

/-- The loop of lines 73-83: every entry gets the first license candidate, if
there is one, as its `LicenseFile`.  Line 74 reads `dep.ProjectRoot` and
panics on a nil entry; when the loop ends normally no entry is nil, and the
result lists the entries that the pointers denote. -/
def locateLicenses (env : Env) (rootDir : List Str) :
    List (Option depEntry) → Res (List depEntry)
  | [] => Res.ok []
  | none :: _ => Res.panic
  | some dep :: rest =>
    match env.glob rootDir dep.ProjectRoot with
    | Except.error err =>
      Res.fatal (lit "Failed to find license candidates for " ++ dep.ProjectRoot ++ lit ": " ++ err)
    | Except.ok licenseCandidates =>
      let dep1 : depEntry :=
        match licenseCandidates with
        | [] => dep
        | c :: _ => { dep with LicenseFile := c }
      match locateLicenses env rootDir rest with
      | Res.ok rest1 => Res.ok (dep1 :: rest1)
      | Res.fatal m => Res.fatal m
      | Res.panic => Res.panic

/-- Function `strings.HasSuffix`. -/
def HasSuffix (s suffix : Str) : Bool :=
  suffix.length ≤ s.length && s.drop (s.length - suffix.length) == suffix

/-- The loop of lines 90-96 over the packages in iteration order. -/
def targetPkg : List (Str × Package) → Option Package → Option Package
  | [], target => target
  | (pkgName, pkg) :: rest, target =>
    if HasSuffix pkgName (lit "_testing") then targetPkg rest target
    else targetPkg rest (some pkg)

/-- Line 70 of `main`, `dependencies, err := getDependencies(rootDir, depPath)`:
the error is assigned and never looked at (line 86 assigns `err` anew); on an
error the list is nil. -/
def dependenciesOf (env : Env) (rootDir : List Str) (depPath : Str) :
    List (Option depEntry) :=
  match getDependencies env rootDir depPath with
  | Except.ok dependencies => dependencies
  | Except.error _ => []

/-- Lines 52-107 of `main`: everything before the template is executed. -/
def prepare (env : Env) : Res templateContext :=
  match env.lookPath with
  | Except.error _ => Res.fatal (lit "dep not installed.")
  | Except.ok depPath =>
    match findRootFolder env with
    | Except.error err => Res.fatal err
    | Except.ok rootDir =>
      match locateLicenses env rootDir (dependenciesOf env rootDir depPath) with
      | Res.fatal m => Res.fatal m
      | Res.panic => Res.panic
      | Res.ok dependencies =>
        match env.parseDir (lit ".") with
        | Except.error err => Res.fatal (lit "Failed to parse current package: " ++ err)
        | Except.ok pkgs =>
          match targetPkg pkgs none with
          | none => Res.fatal (lit "Could not determine target package")
          | some target =>
            Res.ok { FunctionName := env.functionName,
                     TypeName := env.typeName,
                     PackageName := target.Name,
                     NumPackages := dependencies.length,
                     Packages := dependencies }

/-- Lines 109-147 of `main`: execute the template, parse the result and
inject the license texts. -/
def generate (env : Env) (tmplContext : templateContext) : Res File :=
  match env.parseFile (fileTmpl tmplContext) with
  | Except.error err => Res.fatal (lit "Failed to generate target file: " ++ err)
  | Except.ok file =>
    inject env.isPrintTable (ReadFile env) tmplContext.Packages env.functionName file

/-- How the process ends. -/
inductive Exit where
  | ok
  | fatal (msg : Str)
  | panic
  deriving DecidableEq, Repr

/-- A run of the program: how it ends and what it did to the destination. -/
structure Run where
  exit : Exit
  effects : List Effect

/-- Lines 148-157 of `main`. -/
def output (env : Env) (file : File) : Run :=
  if env.outputFilePath = lit "-" then
    { exit := Exit.ok, effects := [Effect.fprint Dest.stdout file] }
  else
    match env.openFile env.outputFilePath with
    | Except.error err =>
      { exit := Exit.fatal (lit "Failed to open output file for writing: " ++ err),
        effects := [Effect.openFile env.outputFilePath false] }
    | Except.ok _ =>
      { exit := Exit.ok,
        effects := [Effect.openFile env.outputFilePath true,
                    Effect.fprint (Dest.file env.outputFilePath) file] }

/-- Function `main`. -/
def main (env : Env) : Run :=
  match prepare env with
  | Res.fatal m => { exit := Exit.fatal m, effects := [] }
  | Res.panic => { exit := Exit.panic, effects := [] }
  | Res.ok tmplContext =>
    match generate env tmplContext with
    | Res.fatal m => { exit := Exit.fatal m, effects := [] }
    | Res.panic => { exit := Exit.panic, effects := [] }
    | Res.ok file => output env file

/-! ## Frame relations of the injector -/

/-- The expression `e1` is `e`, or `e` is a call of `append` whose last
argument is a composite literal and `e1` differs from it in the value of the
second element of that literal, which is a string literal in `e1`. -/
def ExprFrame (e e1 : Expr) : Prop :=
  e1 = e ∨ ∃ args typ elt0 key1 v v1 elts2,
    e = Expr.CallExpr (Expr.Ident (lit "append"))
      (args ++ [Expr.CompositeLit typ (elt0 :: Expr.KeyValueExpr key1 v :: elts2)]) ∧
    e1 = Expr.CallExpr (Expr.Ident (lit "append"))
      (args ++ [Expr.CompositeLit typ
        (elt0 :: Expr.KeyValueExpr key1 (Expr.BasicLit Kind.STRING v1) :: elts2)])

/-- The statement `s1` is `s`, or both are the same assignment up to
`ExprFrame` on the right-hand sides, taken in order. -/
def StmtFrame (s s1 : Stmt) : Prop :=
  s1 = s ∨ ∃ lhs tok rhs rhs1,
    s = Stmt.AssignStmt lhs tok rhs ∧ s1 = Stmt.AssignStmt lhs tok rhs1 ∧
    List.Forall₂ ExprFrame rhs rhs1

/-- The declaration `d1` is `d`, or both are the same function up to
`StmtFrame` on the statements of the body, taken in order. -/
def DeclFrame (d d1 : Decl) : Prop :=
  d1 = d ∨ ∃ n r body body1,
    d = Decl.FuncDecl n r (some body) ∧ d1 = Decl.FuncDecl n r (some body1) ∧
    List.Forall₂ StmtFrame body body1

/-! ## Concrete runs -/

/-- A project at `/p` with a `vendor` directory, package `main` in the
current directory, the default flags, `ParseFile` as parser, and the given
answers of dep, of the license search and of the file system. -/
def projectEnv (output : Str) (deps : Except Str (List depEntry))
    (licenses : Str → List Str) (files : Str → Except Str Str) : Env where
  outputFilePath := output
  functionName := lit "getLicenseInfos"
  typeName := lit "licenseInfo"
  lookPath := Except.ok (lit "/usr/bin/dep")
  abs := Except.ok [lit "p"]
  statOk := fun path => path == [lit "p", lit "vendor"]
  runDep := fun _ _ =>
    match deps with
    | Except.ok _ => Except.ok []
    | Except.error err => Except.error err
  decode := fun _ =>
    match deps with
    | Except.ok ds => Except.ok (ds.map some)
    | Except.error err => Except.error err
  glob := fun _ root => Except.ok (licenses root)
  parseDir := fun dir =>
    if dir = lit "." then Except.ok [(lit "main", { Name := lit "main" })]
    else Except.ok [(lit "other", { Name := lit "other" })]
  parseFile := goParseFile
  isPrintTable := fun _ => true
  readFile := files
  openFile := fun _ => Except.ok ()

/-- The example of the specification: dependencies `a/b` and `c/d`. -/
def envExample : Env :=
  projectEnv (lit "licenses_generated.go")
    (Except.ok [{ ProjectRoot := lit "a/b", LicenseFile := [] },
                { ProjectRoot := lit "c/d", LicenseFile := [] }])
    (fun root => [lit "/p/vendor/" ++ root ++ lit "/LICENSE"])
    (fun name =>
      if name = lit "/p/vendor/a/b/LICENSE" then Except.ok (lit "MIT License\nCopyright \"X\"")
      else if name = lit "/p/vendor/c/d/LICENSE" then Except.ok (lit "BSD\\\\License")
      else Except.error (lit "no such file or directory"))

/-- A dependency whose name holds a `+`, with a readable license file. -/
def envPlus : Env :=
  projectEnv (lit "licenses_generated.go")
    (Except.ok [{ ProjectRoot := lit "a+b", LicenseFile := [] }])
    (fun root => [lit "/p/vendor/" ++ root ++ lit "/LICENSE"])
    (fun _ => Except.ok (lit "MIT License"))

/-- Two dependencies `A` and `\x41`; only `A` has a license file. -/
def envAlias : Env :=
  projectEnv (lit "licenses_generated.go")
    (Except.ok [{ ProjectRoot := lit "A", LicenseFile := [] },
                { ProjectRoot := lit "\\x41", LicenseFile := [] }])
    (fun root => if root = lit "A" then [lit "/p/vendor/A/LICENSE"] else [])
    (fun name =>
      if name = lit "/p/vendor/A/LICENSE" then Except.ok (lit "MIT License")
      else Except.error (lit "no such file or directory"))

/-- The dep tool fails. -/
def envDepFails : Env :=
  projectEnv (lit "licenses_generated.go") (Except.error (lit "exit status 1"))
    (fun _ => []) (fun _ => Except.error (lit "no such file or directory"))

/-- The strings that the `LicenseText` literals of the append statements of
a function body decode to. -/
def licenseTexts (body : List Stmt) : List (Option Str) :=
  body.filterMap fun st =>
    match st with
    | Stmt.AssignStmt _ _ [Expr.CallExpr (Expr.Ident _)
        [_, Expr.CompositeLit _ [_, Expr.KeyValueExpr _ (Expr.BasicLit _ v)]]] =>
      some (Unquote v)
    | _ => none

/-- The strings that the `Package` literals of the append statements of a
function body decode to. -/
def packageNames (body : List Stmt) : List (Option Str) :=
  body.filterMap fun st =>
    match st with
    | Stmt.AssignStmt _ _ [Expr.CallExpr (Expr.Ident _)
        [_, Expr.CompositeLit _ [Expr.KeyValueExpr _ (Expr.BasicLit _ v), _]]] =>
      some (Unquote v)
    | _ => none

/-- The body of the function `name` of a file. -/
def bodyOf (file : File) (name : Str) : List Stmt :=
  match scopeLookup file.Decls name with
  | some (Decl.FuncDecl _ _ (some body)) => body
  | _ => []

/-- The files handed to `printer.Fprint` during a run. -/
def printed (r : Run) : List (Dest × File) :=
  r.effects.filterMap fun e =>
    match e with
    | Effect.fprint dst file => some (dst, file)
    | _ => none

/-- The first element (`Package: ...`) of the record of an append call: the
node `info.Elts[0]` of the injector, when the expression is such a call. -/
def packageElt (e : Expr) : Option Expr :=
  match e with
  | Expr.CallExpr (Expr.Ident name) args =>
    if name = lit "append" then
      match args.getLast? with
      | some (Expr.CompositeLit _ (elt0 :: _)) => some elt0
      | _ => none
    else none
  | _ => none

/-- The `Package` elements of the right-hand sides of a statement. -/
def packageElts (s : Stmt) : List (Option Expr) :=
  match s with
  | Stmt.AssignStmt _ _ rhs => rhs.map packageElt
  | _ => []

/-- The type declared by a declaration, if it is a type declaration. -/
def typeOf (d : Decl) : Option (Str × Expr) :=
  match d with
  | Decl.TypeDecl n t => some (n, t)
  | _ => none

/-- The destination `-`: the example of the specification printed to
standard output. -/
def envStdout : Env := { envExample with outputFilePath := lit "-" }

/-- The example of the specification with other license paths and other
license file contents. -/
def envExampleOther : Env :=
  projectEnv (lit "licenses_generated.go")
    (Except.ok [{ ProjectRoot := lit "a/b", LicenseFile := [] },
                { ProjectRoot := lit "c/d", LicenseFile := [] }])
    (fun root => [lit "/p/vendor/" ++ root ++ lit "/LICENSE.txt"])
    (fun _ => Except.ok (lit "\x7b\x7b .ProjectRoot \x7d\x7d \"Apache\""))

/-- The template context of `envExample` and `envStdout`. -/
def ctxExample : templateContext where
  PackageName := lit "main"
  NumPackages := 2
  Packages := [{ ProjectRoot := lit "a/b", LicenseFile := lit "/p/vendor/a/b/LICENSE" },
               { ProjectRoot := lit "c/d", LicenseFile := lit "/p/vendor/c/d/LICENSE" }]
  FunctionName := lit "getLicenseInfos"
  TypeName := lit "licenseInfo"

/-- The template context of `envExampleOther`. -/
def ctxExampleOther : templateContext where
  PackageName := lit "main"
  NumPackages := 2
  Packages := [{ ProjectRoot := lit "a/b", LicenseFile := lit "/p/vendor/a/b/LICENSE.txt" },
               { ProjectRoot := lit "c/d", LicenseFile := lit "/p/vendor/c/d/LICENSE.txt" }]
  FunctionName := lit "getLicenseInfos"
  TypeName := lit "licenseInfo"

/-- The template context of `envPlus`. -/
def ctxPlus : templateContext where
  PackageName := lit "main"
  NumPackages := 1
  Packages := [{ ProjectRoot := lit "a+b", LicenseFile := lit "/p/vendor/a+b/LICENSE" }]
  FunctionName := lit "getLicenseInfos"
  TypeName := lit "licenseInfo"

/-- The current directory holds only a package whose name ends in
`_testing`. -/
def envNoTarget : Env :=
  { envExample with
    parseDir := fun _ => Except.ok [(lit "main_testing", { Name := lit "main_testing" })] }

/-- The output of dep is the JSON list `[null]`, and the current directory
holds only a package whose name ends in `_testing`. -/
def envNullEntry : Env := { envNoTarget with decode := fun _ => Except.ok [none] }

/-- The output goes to the directory `out`, which holds package `other`;
the current directory holds package `main`. -/
def envSubdir : Env := { envExample with outputFilePath := lit "out/licenses.go" }

/-- The directory of the output destination, in the words of the
specification: the part of the output path before its last slash, and `.`
for a path without a slash (`filepath.Dir` on a clean relative path). -/
def destinationDir (path : Str) : Str :=
  match path.reverse.dropWhile (fun b => b != 47) with
  | [] => lit "."
  | _ :: dir => dir.reverse

/-- A tree with one append statement, and a statement the injector skips. -/
def fileExample : File where
  Name := lit "main"
  Decls :=
    [Decl.TypeDecl (lit "licenseInfo")
       (Expr.StructType [(lit "Package", Expr.Ident (lit "string")),
                         (lit "LicenseText", Expr.Ident (lit "string"))]),
     Decl.FuncDecl (lit "getLicenseInfos") [Expr.ArrayType (Expr.Ident (lit "licenseInfo"))]
       (some
         [Stmt.AssignStmt [Expr.Ident (lit "result")] AssignTok.ASSIGN
            [Expr.CallExpr (Expr.Ident (lit "append"))
               [Expr.Ident (lit "result"),
                Expr.CompositeLit (Expr.Ident (lit "licenseInfo"))
                  [Expr.KeyValueExpr (Expr.Ident (lit "Package"))
                     (Expr.BasicLit Kind.STRING (lit "\"a/b\"")),
                   Expr.KeyValueExpr (Expr.Ident (lit "LicenseText"))
                     (Expr.BasicLit Kind.STRING (lit "\"\""))]]],
          Stmt.ReturnStmt [Expr.Ident (lit "result")]])]

/-! # Theorems -/

/-! ## Round trip of quoting -/

theorem unhex_lowerhex : ∀ d, d < 16 → unhex (lowerhex d) = some d := by decide

theorem hexLoop_two (b : Nat) (hb : b < 256) (tail : Str) :
    hexLoop 2 (lowerhex (b / 16) :: lowerhex (b % 16) :: tail) 0 = some (b, tail) := by
  have h1 := unhex_lowerhex (b / 16) (by omega)
  have h2 := unhex_lowerhex (b % 16) (by omega)
  simp only [hexLoop, h1, h2]
  congr 2
  omega

theorem hexLoop_four (r : Nat) (hr : r < 65536) (tail : Str) :
    hexLoop 4 (lowerhex (r / 4096 % 16) :: lowerhex (r / 256 % 16) ::
      lowerhex (r / 16 % 16) :: lowerhex (r % 16) :: tail) 0 = some (r, tail) := by
  have h1 := unhex_lowerhex (r / 4096 % 16) (by omega)
  have h2 := unhex_lowerhex (r / 256 % 16) (by omega)
  have h3 := unhex_lowerhex (r / 16 % 16) (by omega)
  have h4 := unhex_lowerhex (r % 16) (by omega)
  simp only [hexLoop, h1, h2, h3, h4]
  congr 2
  omega

theorem hexLoop_eight (r : Nat) (hr : r < 4294967296) (tail : Str) :
    hexLoop 8 (lowerhex (r / 268435456 % 16) :: lowerhex (r / 16777216 % 16) ::
      lowerhex (r / 1048576 % 16) :: lowerhex (r / 65536 % 16) ::
      lowerhex (r / 4096 % 16) :: lowerhex (r / 256 % 16) ::
      lowerhex (r / 16 % 16) :: lowerhex (r % 16) :: tail) 0 = some (r, tail) := by
  have h1 := unhex_lowerhex (r / 268435456 % 16) (by omega)
  have h2 := unhex_lowerhex (r / 16777216 % 16) (by omega)
  have h3 := unhex_lowerhex (r / 1048576 % 16) (by omega)
  have h4 := unhex_lowerhex (r / 65536 % 16) (by omega)
  have h5 := unhex_lowerhex (r / 4096 % 16) (by omega)
  have h6 := unhex_lowerhex (r / 256 % 16) (by omega)
  have h7 := unhex_lowerhex (r / 16 % 16) (by omega)
  have h8 := unhex_lowerhex (r % 16) (by omega)
  simp only [hexLoop, h1, h2, h3, h4, h5, h6, h7, h8]
  congr 2
  omega

theorem lowerhex_ne (d : Nat) (hd : d < 16) : lowerhex d ≠ 10 ∧ lowerhex d ≠ 92 := by
  unfold lowerhex; split_ifs <;> omega

/-- Unquoting a `\x` escape. -/
theorem unquoteChar_x (b : Nat) (hb : b < 256) (tail : Str) :
    UnquoteChar (92 :: 120 :: lowerhex (b / 16) :: lowerhex (b % 16) :: tail) 34 =
      some (b, false, tail) := by
  have hl : ¬ (lowerhex (b / 16) :: lowerhex (b % 16) :: tail).length < 2 := by
    simp
  simp [UnquoteChar, RuneSelf, hexLoop_two b hb tail]

theorem unquoteChar_u (r : Nat) (hr : r < 65536) (tail : Str) :
    UnquoteChar (92 :: 117 :: lowerhex (r / 4096 % 16) :: lowerhex (r / 256 % 16) ::
      lowerhex (r / 16 % 16) :: lowerhex (r % 16) :: tail) 34 = some (r, true, tail) := by
  simp [UnquoteChar, RuneSelf, hexLoop_four r hr tail, MaxRune]
  omega

theorem unquoteChar_U (r : Nat) (hr : r ≤ MaxRune) (tail : Str) :
    UnquoteChar (92 :: 85 :: lowerhex (r / 268435456 % 16) :: lowerhex (r / 16777216 % 16) ::
      lowerhex (r / 1048576 % 16) :: lowerhex (r / 65536 % 16) ::
      lowerhex (r / 4096 % 16) :: lowerhex (r / 256 % 16) ::
      lowerhex (r / 16 % 16) :: lowerhex (r % 16) :: tail) 34 = some (r, true, tail) := by
  unfold MaxRune at hr
  simp [UnquoteChar, RuneSelf, hexLoop_eight r (by omega) tail, MaxRune]
  omega
theorem decode_three (s0 lo hi : Nat) (t0 : Str) (h0 : 0xE0 ≤ s0 ∧ s0 ≤ 0xEF)
    (hlo : 0x80 ≤ lo) (hhi : hi ≤ 0xBF) (hE0 : s0 = 0xE0 → lo = 0xA0)
    (hED : s0 = 0xED → hi = 0x9F) (hf : first s0 = some (3, lo, hi)) :
    DecodeRune (s0 :: t0) = (RuneError, 1) ∨ GoodRune (s0 :: t0) := by
  rcases t0 with _ | ⟨s1, t1⟩
  · left; simp [DecodeRune, hf]
  rcases t1 with _ | ⟨s2, t2⟩
  · left; simp [DecodeRune, hf]
  by_cases h1 : s1 < lo ∨ hi < s1
  · left; simp [DecodeRune, hf, h1]
  by_cases h2 : s2 < 0x80 ∨ 0xBF < s2
  · left; simp [DecodeRune, hf, h1, h2]
  right
  have hd : ∀ t, DecodeRune (s0 :: s1 :: s2 :: t) =
      ((s0 % 16) * 4096 + (s1 % 64) * 64 + s2 % 64, 3) := by
    intro t; simp [DecodeRune, hf, h1, h2]
  unfold GoodRune
  rw [hd t2]
  refine ⟨?_, ?_, ?_, ?_, ?_, ?_, ?_, ?_⟩
  · show 128 ≤ s0 % 16 * 4096 + s1 % 64 * 64 + s2 % 64; omega
  · show s0 % 16 * 4096 + s1 % 64 * 64 + s2 % 64 ≤ 0x10FFFF; omega
  · show ¬ (0xD800 ≤ s0 % 16 * 4096 + s1 % 64 * 64 + s2 % 64 ∧
      s0 % 16 * 4096 + s1 % 64 * 64 + s2 % 64 ≤ 0xDFFF)
    omega
  · show 2 ≤ 3; omega
  · rfl
  · show EncodeRune (s0 % 16 * 4096 + s1 % 64 * 64 + s2 % 64) = [s0, s1, s2]
    unfold EncodeRune MaxRune
    rw [if_neg (by omega), if_neg (by omega), if_neg (by omega), if_pos (by omega)]
    congr 1
    · omega
    · congr 1
      · omega
      · congr 1; omega
  · intro tail; exact hd tail
  · intro b hb
    have hb2 : b = s0 ∨ b = s1 ∨ b = s2 := by simpa using hb
    omega

theorem decode_four (s0 lo hi : Nat) (t0 : Str) (h0 : 0xF0 ≤ s0 ∧ s0 ≤ 0xF4)
    (hlo : 0x80 ≤ lo) (hhi : hi ≤ 0xBF) (hF0 : s0 = 0xF0 → lo = 0x90)
    (hF4 : s0 = 0xF4 → hi = 0x8F) (hf : first s0 = some (4, lo, hi)) :
    DecodeRune (s0 :: t0) = (RuneError, 1) ∨ GoodRune (s0 :: t0) := by
  rcases t0 with _ | ⟨s1, t1⟩
  · left; simp [DecodeRune, hf]
  rcases t1 with _ | ⟨s2, t2⟩
  · left; simp [DecodeRune, hf]
  rcases t2 with _ | ⟨s3, t3⟩
  · left; simp [DecodeRune, hf]
  by_cases h1 : s1 < lo ∨ hi < s1
  · left; simp [DecodeRune, hf, h1]
  by_cases h2 : s2 < 0x80 ∨ 0xBF < s2
  · left; simp [DecodeRune, hf, h1, h2]
  by_cases h3 : s3 < 0x80 ∨ 0xBF < s3
  · left; simp [DecodeRune, hf, h1, h2, h3]
  right
  have hd : ∀ t, DecodeRune (s0 :: s1 :: s2 :: s3 :: t) =
      ((s0 % 8) * 262144 + (s1 % 64) * 4096 + (s2 % 64) * 64 + s3 % 64, 4) := by
    intro t; simp [DecodeRune, hf, h1, h2, h3]
  unfold GoodRune
  rw [hd t3]
  refine ⟨?_, ?_, ?_, ?_, ?_, ?_, ?_, ?_⟩
  · show 128 ≤ s0 % 8 * 262144 + s1 % 64 * 4096 + s2 % 64 * 64 + s3 % 64; omega
  · show s0 % 8 * 262144 + s1 % 64 * 4096 + s2 % 64 * 64 + s3 % 64 ≤ 0x10FFFF; omega
  · show ¬ (0xD800 ≤ s0 % 8 * 262144 + s1 % 64 * 4096 + s2 % 64 * 64 + s3 % 64 ∧
      s0 % 8 * 262144 + s1 % 64 * 4096 + s2 % 64 * 64 + s3 % 64 ≤ 0xDFFF)
    omega
  · show 2 ≤ 4; omega
  · rfl
  · show EncodeRune (s0 % 8 * 262144 + s1 % 64 * 4096 + s2 % 64 * 64 + s3 % 64) =
      [s0, s1, s2, s3]
    unfold EncodeRune MaxRune
    rw [if_neg (by omega), if_neg (by omega), if_neg (by omega), if_neg (by omega)]
    congr 1
    · omega
    · congr 1
      · omega
      · congr 1
        · omega
        · congr 1; omega
  · intro tail; exact hd tail
  · intro b hb
    have hb2 : b = s0 ∨ b = s1 ∨ b = s2 ∨ b = s3 := by simpa using hb
    omega


theorem first_spec (s0 sz lo hi : Nat) (h : first s0 = some (sz, lo, hi)) :
    (sz = 2 ∧ 0xC2 ≤ s0 ∧ s0 ≤ 0xDF ∧ lo = 0x80 ∧ hi = 0xBF) ∨
    (sz = 3 ∧ s0 = 0xE0 ∧ lo = 0xA0 ∧ hi = 0xBF) ∨
    (sz = 3 ∧ 0xE1 ≤ s0 ∧ s0 ≤ 0xEF ∧ s0 ≠ 0xED ∧ lo = 0x80 ∧ hi = 0xBF) ∨
    (sz = 3 ∧ s0 = 0xED ∧ lo = 0x80 ∧ hi = 0x9F) ∨
    (sz = 4 ∧ s0 = 0xF0 ∧ lo = 0x90 ∧ hi = 0xBF) ∨
    (sz = 4 ∧ 0xF1 ≤ s0 ∧ s0 ≤ 0xF3 ∧ lo = 0x80 ∧ hi = 0xBF) ∨
    (sz = 4 ∧ s0 = 0xF4 ∧ lo = 0x80 ∧ hi = 0x8F) := by
  unfold first at h
  split_ifs at h <;> simp only [Option.some.injEq, Prod.mk.injEq] at h <;>
    obtain ⟨rfl, rfl, rfl⟩ := h <;> omega

theorem decode_two (s0 : Nat) (t0 : Str) (h0 : 0xC2 ≤ s0 ∧ s0 ≤ 0xDF)
    (hf : first s0 = some (2, 0x80, 0xBF)) :
    DecodeRune (s0 :: t0) = (RuneError, 1) ∨ GoodRune (s0 :: t0) := by
  rcases t0 with _ | ⟨s1, t1⟩
  · left; simp [DecodeRune, hf]
  · by_cases h1 : s1 < 0x80 ∨ 0xBF < s1
    · left; simp [DecodeRune, hf, h1]
    · right
      have hd : ∀ t, DecodeRune (s0 :: s1 :: t) = ((s0 % 32) * 64 + s1 % 64, 2) := by
        intro t; simp [DecodeRune, hf, h1]
      unfold GoodRune
      rw [hd t1]
      refine ⟨?_, ?_, ?_, ?_, ?_, ?_, ?_, ?_⟩
      · show 128 ≤ s0 % 32 * 64 + s1 % 64; omega
      · show s0 % 32 * 64 + s1 % 64 ≤ 0x10FFFF; omega
      · show ¬ (0xD800 ≤ s0 % 32 * 64 + s1 % 64 ∧ s0 % 32 * 64 + s1 % 64 ≤ 0xDFFF); omega
      · show 2 ≤ 2; omega
      · rfl
      · show EncodeRune (s0 % 32 * 64 + s1 % 64) = [s0, s1]
        unfold EncodeRune
        rw [if_neg (by omega), if_pos (by omega)]
        congr 1
        · omega
        · congr 1; omega
      · intro tail; exact hd tail
      · intro b hb
        have hb2 : b = s0 ∨ b = s1 := by simpa using hb
        omega

theorem decode_multibyte (s0 : Nat) (t0 : Str) (h0 : 128 ≤ s0) :
    DecodeRune (s0 :: t0) = (RuneError, 1) ∨ GoodRune (s0 :: t0) := by
  cases hf : first s0 with
  | none =>
    left
    have : ¬ s0 < RuneSelf := by unfold RuneSelf; omega
    simp [DecodeRune, hf, this]
  | some p =>
    obtain ⟨sz, lo, hi⟩ := p
    rcases first_spec s0 sz lo hi hf with h | h | h | h | h | h | h
    · obtain ⟨rfl, h1, h2, rfl, rfl⟩ := h
      exact decode_two s0 t0 ⟨h1, h2⟩ hf
    · obtain ⟨rfl, h1, rfl, rfl⟩ := h
      exact decode_three s0 _ _ t0 (by omega) (by omega) (by omega) (by omega) (by omega) hf
    · obtain ⟨rfl, h1, h2, h3, rfl, rfl⟩ := h
      exact decode_three s0 _ _ t0 (by omega) (by omega) (by omega) (by omega) (by omega) hf
    · obtain ⟨rfl, h1, rfl, rfl⟩ := h
      exact decode_three s0 _ _ t0 (by omega) (by omega) (by omega) (by omega) (by omega) hf
    · obtain ⟨rfl, h1, rfl, rfl⟩ := h
      exact decode_four s0 _ _ t0 (by omega) (by omega) (by omega) (by omega) (by omega) hf
    · obtain ⟨rfl, h1, h2, rfl, rfl⟩ := h
      exact decode_four s0 _ _ t0 (by omega) (by omega) (by omega) (by omega) (by omega) hf
    · obtain ⟨rfl, h1, rfl, rfl⟩ := h
      exact decode_four s0 _ _ t0 (by omega) (by omega) (by omega) (by omega) (by omega) hf

theorem isPrint_ascii (tbl : Nat → Bool) (r : Nat) (hr : r < 128) (h : IsPrint tbl r = true) :
    32 ≤ r ∧ r ≤ 126 := by
  unfold IsPrint at h
  rw [if_pos (by omega)] at h
  by_contra hc
  rw [if_neg hc, if_neg (by omega)] at h
  exact Bool.false_ne_true h

/-- The shapes of the output of `appendEscapedRune`. -/
theorem appendEscapedRune_cases (tbl : Nat → Bool) (r : Nat) :
    ((r = 34 ∨ r = 92) ∧ appendEscapedRune tbl r = [92, r]) ∨
    (r ≠ 34 ∧ r ≠ 92 ∧ IsPrint tbl r = true ∧ appendEscapedRune tbl r = EncodeRune r) ∨
    (r = 7 ∧ appendEscapedRune tbl r = [92, 97]) ∨
    (r = 8 ∧ appendEscapedRune tbl r = [92, 98]) ∨
    (r = 12 ∧ appendEscapedRune tbl r = [92, 102]) ∨
    (r = 10 ∧ appendEscapedRune tbl r = [92, 110]) ∨
    (r = 13 ∧ appendEscapedRune tbl r = [92, 114]) ∨
    (r = 9 ∧ appendEscapedRune tbl r = [92, 116]) ∨
    (r = 11 ∧ appendEscapedRune tbl r = [92, 118]) ∨
    (r < 32 ∧ appendEscapedRune tbl r =
      [92, 120, lowerhex (r % 256 / 16), lowerhex (r % 16)]) ∨
    (MaxRune < r ∧ appendEscapedRune tbl r = [92, 117, 102, 102, 102, 100]) ∨
    (32 ≤ r ∧ r < 65536 ∧ appendEscapedRune tbl r =
      [92, 117, lowerhex (r / 4096 % 16), lowerhex (r / 256 % 16),
        lowerhex (r / 16 % 16), lowerhex (r % 16)]) ∨
    (65536 ≤ r ∧ r ≤ MaxRune ∧ appendEscapedRune tbl r =
      [92, 85, lowerhex (r / 268435456 % 16), lowerhex (r / 16777216 % 16),
        lowerhex (r / 1048576 % 16), lowerhex (r / 65536 % 16),
        lowerhex (r / 4096 % 16), lowerhex (r / 256 % 16),
        lowerhex (r / 16 % 16), lowerhex (r % 16)]) := by
  by_cases h1 : r = 34 ∨ r = 92
  · left; exact ⟨h1, by simp [appendEscapedRune, h1]⟩
  right
  have h34 : r ≠ 34 := fun h => h1 (Or.inl h)
  have h92 : r ≠ 92 := fun h => h1 (Or.inr h)
  by_cases h2 : IsPrint tbl r = true
  · left; exact ⟨h34, h92, h2, by simp [appendEscapedRune, h1, h2]⟩
  right
  by_cases h3 : r = 7
  · left; subst h3; exact ⟨rfl, by simp [appendEscapedRune, h2]; rfl⟩
  right
  by_cases h4 : r = 8
  · left; subst h4; exact ⟨rfl, by simp [appendEscapedRune, h2]; rfl⟩
  right
  by_cases h5 : r = 12
  · left; subst h5; exact ⟨rfl, by simp [appendEscapedRune, h2]; rfl⟩
  right
  by_cases h6 : r = 10
  · left; subst h6; exact ⟨rfl, by simp [appendEscapedRune, h2]; rfl⟩
  right
  by_cases h7 : r = 13
  · left; subst h7; exact ⟨rfl, by simp [appendEscapedRune, h2]; rfl⟩
  right
  by_cases h8 : r = 9
  · left; subst h8; exact ⟨rfl, by simp [appendEscapedRune, h2]; rfl⟩
  right
  by_cases h9 : r = 11
  · left; subst h9; exact ⟨rfl, by simp [appendEscapedRune, h2]; rfl⟩
  right
  by_cases h10 : r < 32
  · left; exact ⟨h10, by simp [appendEscapedRune, h1, h2, h3, h4, h5, h6, h7, h8, h9, h10]; rfl⟩
  right
  by_cases h11 : MaxRune < r
  · left
    refine ⟨h11, ?_⟩
    simp only [appendEscapedRune, if_neg h1, if_neg h2, if_neg h3, if_neg h4, if_neg h5,
      if_neg h6, if_neg h7, if_neg h8, if_neg h9, if_neg h10]
    rw [if_pos h11]
    rfl
  right
  by_cases h12 : r < 65536
  · left
    refine ⟨by omega, h12, ?_⟩
    simp only [appendEscapedRune, if_neg h1, if_neg h2, if_neg h3, if_neg h4, if_neg h5,
      if_neg h6, if_neg h7, if_neg h8, if_neg h9, if_neg h10]
    rw [if_neg h11, if_pos h12]
    rfl
  right
  refine ⟨by omega, by omega, ?_⟩
  simp only [appendEscapedRune, if_neg h1, if_neg h2, if_neg h3, if_neg h4, if_neg h5,
    if_neg h6, if_neg h7, if_neg h8, if_neg h9, if_neg h10]
  rw [if_neg h11, if_neg h12]
  rfl


theorem emit_byte (c : Nat) (hc : c < 256) : emit c false = [c] := by
  simp [emit, Nat.mod_eq_of_lt hc]

theorem stepOK_x (b : Nat) (hb : b < 256) :
    StepOK [92, 120, lowerhex (b / 16), lowerhex (b % 16)] [b] := by
  have h1 := lowerhex_ne (b / 16) (by omega)
  have h2 := lowerhex_ne (b % 16) (by omega)
  refine ⟨fun tail => ⟨b, false, unquoteChar_x b hb tail, emit_byte b hb⟩, ?_, ?_, ?_⟩
  · simp only [List.mem_cons, List.mem_nil_iff, or_false, not_or]
    exact ⟨by omega, by omega, Ne.symm h1.1, Ne.symm h2.1⟩
  · simp
  · intro h; simp at h

theorem stepOK_simple (e v : Nat) (hv : v < 256)
    (h : ∀ tail, UnquoteChar (92 :: e :: tail) 34 = some (v, false, tail)) (he : e ≠ 10) :
    StepOK [92, e] [v] := by
  refine ⟨fun tail => ⟨v, false, h tail, emit_byte v hv⟩, ?_, ?_, ?_⟩
  · simp only [List.mem_cons, List.mem_nil_iff, or_false, not_or]
    exact ⟨by omega, Ne.symm he⟩
  · simp
  · intro h; simp at h

theorem escaped_ascii (tbl : Nat → Bool) (r : Nat) (hr : r < 128) :
    StepOK (appendEscapedRune tbl r) [r] := by
  rcases appendEscapedRune_cases tbl r with h | h | h | h | h | h | h | h | h | h | h | h | h
  · obtain ⟨h1, h2⟩ := h
    rw [h2]
    rcases h1 with rfl | rfl
    · exact stepOK_simple 34 34 (by omega) (fun tail => by simp [UnquoteChar, RuneSelf]) (by omega)
    · exact stepOK_simple 92 92 (by omega) (fun tail => by simp [UnquoteChar, RuneSelf]) (by omega)
  · obtain ⟨h34, h92, hp, h2⟩ := h
    have hp := isPrint_ascii tbl r hr hp
    have he : EncodeRune r = [r] := by unfold EncodeRune; rw [if_pos (by omega)]
    rw [h2, he]
    refine ⟨fun tail => ⟨r, false, ?_, emit_byte r (by omega)⟩, ?_, ?_, ?_⟩
    · have : ¬ r ≥ RuneSelf := by unfold RuneSelf; omega
      simp [UnquoteChar, h34, h92, this]
    · simp only [List.mem_cons, List.mem_nil_iff, or_false]; omega
    · simp
    · intro _; rfl
  · obtain ⟨rfl, h2⟩ := h; rw [h2]
    exact stepOK_simple _ _ (by omega) (fun tail => by simp [UnquoteChar, RuneSelf]) (by omega)
  · obtain ⟨rfl, h2⟩ := h; rw [h2]
    exact stepOK_simple _ _ (by omega) (fun tail => by simp [UnquoteChar, RuneSelf]) (by omega)
  · obtain ⟨rfl, h2⟩ := h; rw [h2]
    exact stepOK_simple _ _ (by omega) (fun tail => by simp [UnquoteChar, RuneSelf]) (by omega)
  · obtain ⟨rfl, h2⟩ := h; rw [h2]
    exact stepOK_simple _ _ (by omega) (fun tail => by simp [UnquoteChar, RuneSelf]) (by omega)
  · obtain ⟨rfl, h2⟩ := h; rw [h2]
    exact stepOK_simple _ _ (by omega) (fun tail => by simp [UnquoteChar, RuneSelf]) (by omega)
  · obtain ⟨rfl, h2⟩ := h; rw [h2]
    exact stepOK_simple _ _ (by omega) (fun tail => by simp [UnquoteChar, RuneSelf]) (by omega)
  · obtain ⟨rfl, h2⟩ := h; rw [h2]
    exact stepOK_simple _ _ (by omega) (fun tail => by simp [UnquoteChar, RuneSelf]) (by omega)
  · obtain ⟨h1, h2⟩ := h
    rw [h2, Nat.mod_eq_of_lt (show r < 256 by omega)]
    exact stepOK_x r (by omega)
  · unfold MaxRune at h; omega
  · obtain ⟨h1, h2, h3⟩ := h
    rw [h3]
    have h4 := lowerhex_ne (r / 4096 % 16) (by omega)
    have h5 := lowerhex_ne (r / 256 % 16) (by omega)
    have h6 := lowerhex_ne (r / 16 % 16) (by omega)
    have h7 := lowerhex_ne (r % 16) (by omega)
    refine ⟨fun tail => ⟨r, true, unquoteChar_u r h2 tail, ?_⟩, ?_, ?_, ?_⟩
    · have : r < RuneSelf := by unfold RuneSelf; omega
      simp [emit, this, Nat.mod_eq_of_lt (show r < 256 by omega)]
    · simp only [List.mem_cons, List.mem_nil_iff, or_false, not_or]
      exact ⟨by omega, by omega, Ne.symm h4.1, Ne.symm h5.1, Ne.symm h6.1, Ne.symm h7.1⟩
    · simp
    · intro h; simp at h
  · omega

theorem emit_rune (r : Nat) (h1 : 128 ≤ r) (h2 : r ≤ MaxRune) : emit r true = EncodeRune r := by
  unfold MaxRune at h2
  have : ¬ (r < RuneSelf ∨ r ≥ 2147483648 ∨ true = false) := by
    unfold RuneSelf; simp; omega
  unfold emit
  rw [if_neg this]

theorem unquoteChar_raw (s : Str) (tail : Str) (hg : GoodRune s) :
    UnquoteChar (s.take (DecodeRune s).2 ++ tail) 34 =
      some ((DecodeRune s).1, true, tail) := by
  obtain ⟨_, _, _, hw, hlen, _, hdec, hge⟩ := hg
  generalize henc : s.take (DecodeRune s).2 = enc at hlen hdec hge
  rcases enc with _ | ⟨e0, rest⟩
  · simp at hlen; omega
  · have h0 : 128 ≤ e0 := hge e0 (by simp)
    have hs : e0 ≥ RuneSelf := by unfold RuneSelf; omega
    have hd := hdec tail
    simp only [List.cons_append] at hd
    have hq : ¬ e0 = 34 := by omega
    simp only [UnquoteChar, List.cons_append, hd, hq, false_and, if_false, if_pos hs]
    congr 3
    rw [← List.cons_append, ← hlen]
    exact List.drop_left _ _

theorem escaped_multi (tbl : Nat → Bool) (s : Str) (hg : GoodRune s) :
    StepOK (appendEscapedRune tbl (DecodeRune s).1) (s.take (DecodeRune s).2) := by
  have hraw := fun tail => unquoteChar_raw s tail hg
  obtain ⟨hr1, hr2, _, hw, hlen, henc, hdec, hge⟩ := hg
  have hem := emit_rune _ hr1 hr2
  generalize (DecodeRune s).1 = r at *
  have hr2' : r ≤ 1114111 := hr2
  rcases appendEscapedRune_cases tbl r with h | h | h | h | h | h | h | h | h | h | h | h | h
  · omega
  · obtain ⟨h34, h92, hp, h2⟩ := h
    rw [h2, henc]
    refine ⟨fun tail => ⟨r, true, hraw tail,
      by rw [hem, henc]⟩, ?_, ?_, ?_⟩
    · intro h; have := hge 10 h; omega
    · intro h; rw [h] at hlen; simp at hlen; omega
    · intro _; rfl
  · omega
  · omega
  · omega
  · omega
  · omega
  · omega
  · omega
  · omega
  · omega
  · obtain ⟨h1, h2, h3⟩ := h
    rw [h3]
    have h4 := lowerhex_ne (r / 4096 % 16) (by omega)
    have h5 := lowerhex_ne (r / 256 % 16) (by omega)
    have h6 := lowerhex_ne (r / 16 % 16) (by omega)
    have h7 := lowerhex_ne (r % 16) (by omega)
    refine ⟨fun tail => ⟨r, true, unquoteChar_u r h2 tail, by rw [hem, henc]⟩, ?_, ?_, ?_⟩
    · simp only [List.mem_cons, List.mem_nil_iff, or_false, not_or]
      exact ⟨by omega, by omega, Ne.symm h4.1, Ne.symm h5.1, Ne.symm h6.1, Ne.symm h7.1⟩
    · simp
    · intro h; simp at h
  · obtain ⟨h1, h2, h3⟩ := h
    rw [h3]
    have h4 := lowerhex_ne (r / 268435456 % 16) (by omega)
    have h5 := lowerhex_ne (r / 16777216 % 16) (by omega)
    have h6 := lowerhex_ne (r / 1048576 % 16) (by omega)
    have h7 := lowerhex_ne (r / 65536 % 16) (by omega)
    have h8 := lowerhex_ne (r / 4096 % 16) (by omega)
    have h9 := lowerhex_ne (r / 256 % 16) (by omega)
    have h10 := lowerhex_ne (r / 16 % 16) (by omega)
    have h11 := lowerhex_ne (r % 16) (by omega)
    refine ⟨fun tail => ⟨r, true, unquoteChar_U r h2 tail, by rw [hem, henc]⟩, ?_, ?_, ?_⟩
    · simp only [List.mem_cons, List.mem_nil_iff, or_false, not_or]
      exact ⟨by omega, by omega, Ne.symm h4.1, Ne.symm h5.1, Ne.symm h6.1, Ne.symm h7.1,
        Ne.symm h8.1, Ne.symm h9.1, Ne.symm h10.1, Ne.symm h11.1⟩
    · simp
    · intro h; simp at h

theorem quoteStep_spec (tbl : Nat → Bool) (s0 : Nat) (t0 : Str) (h0 : s0 < 256) :
    StepOK (quoteStep tbl (s0 :: t0)) ((s0 :: t0).take (quoteRune (s0 :: t0)).2) ∧
      1 ≤ (quoteRune (s0 :: t0)).2 := by
  by_cases h : s0 < 128
  · have hq : quoteRune (s0 :: t0) = (s0, 1) := by
      have : ¬ s0 ≥ RuneSelf := by unfold RuneSelf; omega
      simp [quoteRune, this]
    have hs : quoteStep tbl (s0 :: t0) = appendEscapedRune tbl s0 := by
      have : ¬ s0 = RuneError := by unfold RuneError; omega
      simp [quoteStep, hq, this]
    rw [hs, hq]
    exact ⟨escaped_ascii tbl s0 h, le_refl _⟩
  · have hq : quoteRune (s0 :: t0) = DecodeRune (s0 :: t0) := by
      have : s0 ≥ RuneSelf := by unfold RuneSelf; omega
      simp [quoteRune, this]
    rcases decode_multibyte s0 t0 (by omega) with hd | hg
    · have hs : quoteStep tbl (s0 :: t0) = [92, 120, lowerhex (s0 / 16), lowerhex (s0 % 16)] := by
        simp [quoteStep, hq, hd, lit]
      rw [hs, hq, hd]
      exact ⟨stepOK_x s0 h0, le_refl _⟩
    · have hw : 2 ≤ (DecodeRune (s0 :: t0)).2 := hg.2.2.2.1
      have hs : quoteStep tbl (s0 :: t0) = appendEscapedRune tbl (DecodeRune (s0 :: t0)).1 := by
        have : ¬ (DecodeRune (s0 :: t0)).2 = 1 := by omega
        simp [quoteStep, hq, this]
      rw [hs, hq]
      exact ⟨escaped_multi tbl _ hg, by omega⟩

theorem isBytes_drop (s : Str) (n : Nat) (h : IsBytes s) : IsBytes (s.drop n) :=
  fun b hb => h b (List.mem_of_mem_drop hb)

theorem unquoteLoop_nil (fuel : Nat) (buf : Str) : unquoteLoop 34 fuel [] buf = some buf := by
  cases fuel <;> simp [unquoteLoop]

/-- The decoding loop run on the output of the quoting loop returns the input. -/
theorem unquoteLoop_quoteLoop (tbl : Nat → Bool) :
    ∀ (fuel : Nat) (s buf : Str) (f2 : Nat), IsBytes s → s.length ≤ fuel →
      (quoteLoop tbl fuel s).length ≤ f2 →
      unquoteLoop 34 f2 (quoteLoop tbl fuel s) buf = some (buf ++ s) := by
  intro fuel
  induction fuel with
  | zero =>
    intro s buf f2 _ hl _
    have : s = [] := List.eq_nil_of_length_eq_zero (by omega)
    subst this
    simp [quoteLoop, unquoteLoop_nil]
  | succ fuel ih =>
    intro s buf f2 hb hl hf
    rcases s with _ | ⟨s0, t0⟩
    · simp [quoteLoop, unquoteLoop_nil]
    · obtain ⟨⟨hun, _, hne, _⟩, hw⟩ := quoteStep_spec tbl s0 t0 (hb s0 (by simp))
      simp only [quoteLoop] at hf ⊢
      generalize hch : quoteStep tbl (s0 :: t0) = chunk at *
      generalize hwd : (quoteRune (s0 :: t0)).2 = w at *
      obtain ⟨c, mb, huq, hem⟩ := hun (quoteLoop tbl fuel ((s0 :: t0).drop w))
      rcases chunk with _ | ⟨a, chunk⟩
      · exact absurd rfl hne
      · rcases f2 with _ | f2
        · simp at hf
        · simp only [List.cons_append] at huq hf ⊢
          simp only [unquoteLoop, huq]
          have hq : ¬ ((34:Nat) = 39 ∧ quoteLoop tbl fuel ((s0 :: t0).drop w) ≠ []) := by
            omega
          rw [if_neg hq]
          have hdl : ((s0 :: t0).drop w).length ≤ fuel := by
            simp only [List.length_drop, List.length_cons] at hl ⊢
            omega
          have := ih ((s0 :: t0).drop w)
            (buf ++ if c < RuneSelf ∨ c ≥ 2147483648 ∨ mb = false then [c % 256]
              else EncodeRune c)
            f2 (isBytes_drop _ _ hb) hdl (by
              simp only [List.length_cons, List.length_append] at hf; omega)
          rw [this]
          have hem2 : (if c < RuneSelf ∨ c ≥ 2147483648 ∨ mb = false then [c % 256]
              else EncodeRune c) = (s0 :: t0).take w := hem
          rw [hem2, List.append_assoc, List.take_append_drop]

theorem quoteLoop_no_newline (tbl : Nat → Bool) :
    ∀ (fuel : Nat) (s : Str), IsBytes s → 10 ∉ quoteLoop tbl fuel s := by
  intro fuel
  induction fuel with
  | zero => intro s _; simp [quoteLoop]
  | succ fuel ih =>
    intro s hb
    rcases s with _ | ⟨s0, t0⟩
    · simp [quoteLoop]
    · obtain ⟨⟨_, h10, _, _⟩, _⟩ := quoteStep_spec tbl s0 t0 (hb s0 (by simp))
      simp only [quoteLoop, List.mem_append, not_or]
      exact ⟨h10, ih _ (isBytes_drop _ _ hb)⟩

theorem quoteLoop_no_backslash (tbl : Nat → Bool) :
    ∀ (fuel : Nat) (s : Str), IsBytes s → s.length ≤ fuel →
      92 ∉ quoteLoop tbl fuel s → quoteLoop tbl fuel s = s := by
  intro fuel
  induction fuel with
  | zero =>
    intro s _ hl _
    have : s = [] := List.eq_nil_of_length_eq_zero (by omega)
    subst this
    simp [quoteLoop]
  | succ fuel ih =>
    intro s hb hl h92
    rcases s with _ | ⟨s0, t0⟩
    · simp [quoteLoop]
    · obtain ⟨⟨_, _, _, hraw⟩, hw⟩ := quoteStep_spec tbl s0 t0 (hb s0 (by simp))
      simp only [quoteLoop, List.mem_append, not_or] at h92 ⊢
      have hdl : ((s0 :: t0).drop (quoteRune (s0 :: t0)).2).length ≤ fuel := by
        simp only [List.length_drop, List.length_cons] at hl ⊢
        omega
      rw [hraw h92.1, ih _ (isBytes_drop _ _ hb) hdl h92.2, List.take_append_drop]

/-- Claim C1 (round trip of the literal encoding): for every license file
content `C`, any sequence of bytes, and whatever the print tables above
Latin-1 are, the literal `strconv.Quote(string(C))` that the injector builds is
accepted by `strconv.Unquote` and decodes to exactly `C`. -/
theorem Unquote_Quote (tbl : Nat → Bool) (C : Str) (hC : IsBytes C) :
    Unquote (Quote tbl C) = some C := by
  have hnl := quoteLoop_no_newline tbl C.length C hC
  have hbs := quoteLoop_no_backslash tbl C.length C hC (le_refl _)
  have hloop := unquoteLoop_quoteLoop tbl C.length C [] (quoteLoop tbl C.length C).length hC
    (le_refl _) (le_refl _)
  unfold Quote
  generalize quoteLoop tbl C.length C = q at *
  have hmid : (List.drop 1 (34 :: (q ++ [34]))).take ((34 :: (q ++ [34])).length - 2) = q := by
    simp
  have hlast : (34 :: (q ++ [34])).getLastD 0 = 34 := by
    simp [List.getLastD]
  have hlen : ¬ (34 :: (q ++ [34])).length < 2 := by simp
  unfold Unquote
  simp only [hmid, hlast, List.headD_cons]
  rw [if_neg hlen, if_neg (by omega), if_neg (by omega), if_neg (by omega), if_neg hnl]
  split_ifs with h
  · rw [hbs h.1]
  · simpa using hloop

/-! ## Frame of the injector -/

theorem injectExpr_frame (tbl : Nat → Bool) (readFile : Str → Except Str Str)
    (pkgMap : List depEntry) (e e1 : Expr)
    (h : injectExpr tbl readFile pkgMap e = Res.ok e1) : ExprFrame e e1 := by
  unfold injectExpr at h
  split at h
  · rename_i fn args
    split at h
    · rename_i name
      split at h
      · rename_i hname
        split at h
        · rename_i typ elts hlast
          split at h
          · rename_i key0 kind0 value0 elts1
            split at h
            · exact absurd h (by simp)
            · split at h
              · exact absurd h (by simp)
              · split at h
                · exact absurd h (by simp)
                · split at h
                  · rename_i key1 v elts2
                    rename_i data hread elts1
                    injection h with h
                    subst h
                    subst hname
                    exact Or.inr ⟨args.dropLast, typ, Expr.KeyValueExpr key0 (Expr.BasicLit kind0 value0),
                      key1, v, Quote tbl data, elts2,
                      by rw [List.dropLast_append_getLast? _ hlast], rfl⟩
                  · exact absurd h (by simp)
          · exact absurd h (by simp)
        · exact absurd h (by simp)
      · injection h with h; exact Or.inl h.symm
    · exact absurd h (by simp)
  · injection h with h; exact Or.inl h.symm


theorem injectExprs_frame (tbl : Nat → Bool) (readFile : Str → Except Str Str)
    (pkgMap : List depEntry) :
    ∀ (es es1 : List Expr), injectExprs tbl readFile pkgMap es = Res.ok es1 →
      List.Forall₂ ExprFrame es es1 := by
  intro es
  induction es with
  | nil =>
    intro es1 h
    simp only [injectExprs] at h
    injection h with h
    subst h
    exact List.Forall₂.nil
  | cons e rest ih =>
    intro es1 h
    simp only [injectExprs] at h
    split at h
    · rename_i e1 he
      split at h
      · rename_i rest1 hr
        injection h with h
        subst h
        exact List.Forall₂.cons (injectExpr_frame tbl readFile pkgMap e e1 he) (ih rest1 hr)
      · exact absurd h (by simp)
      · exact absurd h (by simp)
    · exact absurd h (by simp)
    · exact absurd h (by simp)

theorem injectStmt_frame (tbl : Nat → Bool) (readFile : Str → Except Str Str)
    (pkgMap : List depEntry) (st st1 : Stmt)
    (h : injectStmt tbl readFile pkgMap st = Res.ok st1) : StmtFrame st st1 := by
  unfold injectStmt at h
  split at h
  · rename_i lhs tok rhs
    split at h
    · rename_i rhs1 hr
      injection h with h
      subst h
      exact Or.inr ⟨lhs, tok, rhs, rhs1, rfl, rfl, injectExprs_frame tbl readFile pkgMap rhs rhs1 hr⟩
    · exact absurd h (by simp)
    · exact absurd h (by simp)
  · injection h with h
    exact Or.inl h.symm

theorem injectStmts_frame (tbl : Nat → Bool) (readFile : Str → Except Str Str)
    (pkgMap : List depEntry) :
    ∀ (body body1 : List Stmt), injectStmts tbl readFile pkgMap body = Res.ok body1 →
      List.Forall₂ StmtFrame body body1 := by
  intro body
  induction body with
  | nil =>
    intro body1 h
    simp only [injectStmts] at h
    injection h with h
    subst h
    exact List.Forall₂.nil
  | cons st rest ih =>
    intro body1 h
    simp only [injectStmts] at h
    split at h
    · rename_i st1 hs
      split at h
      · rename_i rest1 hr
        injection h with h
        subst h
        exact List.Forall₂.cons (injectStmt_frame tbl readFile pkgMap st st1 hs) (ih rest1 hr)
      · exact absurd h (by simp)
      · exact absurd h (by simp)
    · exact absurd h (by simp)
    · exact absurd h (by simp)

theorem forall₂_declFrame_refl (decls : List Decl) : List.Forall₂ DeclFrame decls decls :=
  List.forall₂_same.2 fun _ _ => Or.inl rfl

theorem setBody_frame (name : Str) (body body1 : List Stmt)
    (hb : List.Forall₂ StmtFrame body body1) :
    ∀ (decls : List Decl) (n : Str) (r : List Expr),
      scopeLookup decls name = some (Decl.FuncDecl n r (some body)) →
      List.Forall₂ DeclFrame decls (setBody decls name body1) := by
  intro decls
  induction decls with
  | nil => intro n r h; simp [scopeLookup] at h
  | cons d rest ih =>
    intro n r h
    cases d with
    | TypeDecl n0 t0 =>
      simp only [scopeLookup, setBody] at h ⊢
      split at h
      · exact absurd h (by simp)
      · rename_i hc
        rw [if_neg hc]
        exact List.Forall₂.cons (Or.inl rfl) (ih n r h)
    | FuncDecl n0 r0 b0 =>
      simp only [scopeLookup, setBody] at h ⊢
      split at h
      · rename_i hc
        rw [if_pos hc]
        injection h with h
        injection h with h1 h2 h3
        subst h1 h2 h3
        exact List.Forall₂.cons (Or.inr ⟨_, _, body, body1, rfl, rfl, hb⟩)
          (forall₂_declFrame_refl rest)
      · rename_i hc
        rw [if_neg hc]
        exact List.Forall₂.cons (Or.inl rfl) (ih n r h)

theorem frame_of_inject (tbl : Nat → Bool) (readFile : Str → Except Str Str)
    (pkgMap : List depEntry) (functionName : Str) (file file1 : File)
    (h : inject tbl readFile pkgMap functionName file = Res.ok file1) :
    file1.Name = file.Name ∧ List.Forall₂ DeclFrame file.Decls file1.Decls := by
  unfold inject at h
  split at h
  · exact absurd h (by simp)
  · exact absurd h (by simp)
  · exact absurd h (by simp)
  · rename_i n r body hl
    split at h
    · rename_i body1 hb
      injection h with h
      subst h
      exact ⟨rfl, setBody_frame functionName body body1
        (injectStmts_frame tbl readFile pkgMap body body1 hb) file.Decls n r hl⟩
    · exact absurd h (by simp)
    · exact absurd h (by simp)

theorem map_eq_of_forall₂ {α β : Type} (R : α → α → Prop) (f : α → β)
    (h : ∀ a b, R a b → f b = f a) :
    ∀ (l l1 : List α), List.Forall₂ R l l1 → l1.map f = l.map f := by
  intro l l1 hl
  induction hl with
  | nil => rfl
  | cons hab _ ih => simp only [List.map_cons, h _ _ hab, ih]

theorem packageElt_frame (e e1 : Expr) (h : ExprFrame e e1) : packageElt e1 = packageElt e := by
  rcases h with h | ⟨args, typ, elt0, key1, v, v1, elts2, h, h1⟩
  · rw [h]
  · subst h h1
    simp [packageElt]

theorem packageElts_frame (s s1 : Stmt) (h : StmtFrame s s1) :
    packageElts s1 = packageElts s := by
  rcases h with h | ⟨lhs, tok, rhs, rhs1, h, h1, hr⟩
  · rw [h]
  · subst h h1
    exact map_eq_of_forall₂ ExprFrame packageElt packageElt_frame rhs rhs1 hr

theorem typeOf_frame (d d1 : Decl) (h : DeclFrame d d1) : typeOf d1 = typeOf d := by
  rcases h with h | ⟨n, r, body, body1, h, h1, _⟩
  · rw [h]
  · subst h h1
    rfl

theorem scopeLookup_setBody (name : Str) (body1 : List Stmt) :
    ∀ (decls : List Decl) (n : Str) (r : List Expr) (body : List Stmt),
      scopeLookup decls name = some (Decl.FuncDecl n r (some body)) →
      scopeLookup (setBody decls name body1) name = some (Decl.FuncDecl n r (some body1)) := by
  intro decls
  induction decls with
  | nil => intro n r body h; simp [scopeLookup] at h
  | cons d rest ih =>
    intro n r body h
    cases d with
    | TypeDecl n0 t0 =>
      simp only [scopeLookup, setBody] at h ⊢
      split at h
      · exact absurd h (by simp)
      · rename_i hc
        rw [if_neg hc]
        simp only [scopeLookup, if_neg hc]
        exact ih n r body h
    | FuncDecl n0 r0 b0 =>
      simp only [scopeLookup, setBody] at h ⊢
      split at h
      · rename_i hc
        rw [if_pos hc]
        injection h with h
        injection h with h1 h2 h3
        subst h1 h2
        simp only [scopeLookup, if_pos hc]
      · rename_i hc
        rw [if_neg hc]
        simp only [scopeLookup, if_neg hc]
        exact ih n r body h

/-- What a successful injection does to the tree. -/
theorem frame_of_inject_body (tbl : Nat → Bool) (readFile : Str → Except Str Str)
    (pkgMap : List depEntry) (functionName : Str) (file file1 : File)
    (h : inject tbl readFile pkgMap functionName file = Res.ok file1) :
    List.Forall₂ StmtFrame (bodyOf file functionName) (bodyOf file1 functionName) := by
  unfold inject at h
  split at h
  · exact absurd h (by simp)
  · exact absurd h (by simp)
  · exact absurd h (by simp)
  · rename_i n r body hl
    split at h
    · rename_i body1 hb
      injection h with h
      subst h
      have h1 := scopeLookup_setBody functionName body1 file.Decls n r body hl
      simp only [bodyOf, hl, h1]
      exact injectStmts_frame tbl readFile pkgMap body body1 hb
    · exact absurd h (by simp)
    · exact absurd h (by simp)

/-! ## The stages of `main` -/

theorem locateLicenses_not_panic (env : Env) (rootDir : List Str) :
    ∀ deps, none ∉ deps → locateLicenses env rootDir deps ≠ Res.panic := by
  intro deps
  induction deps with
  | nil => intro _; simp [locateLicenses]
  | cons d rest ih =>
    intro hn
    cases d with
    | none => exact absurd (List.mem_cons_self _ _) hn
    | some dep =>
      have hr : none ∉ rest := fun h => hn (List.mem_cons_of_mem _ h)
      simp only [locateLicenses]
      split
      · simp
      · split
        · simp
        · simp
        · rename_i h; exact absurd h (ih hr)

theorem dependenciesOf_no_nil (env : Env) (rootDir : List Str) (depPath : Str)
    (hnil : ∀ buf ds, env.decode buf = Except.ok ds → none ∉ ds) :
    none ∉ dependenciesOf env rootDir depPath := by
  unfold dependenciesOf
  split
  · rename_i ds hg
    unfold getDependencies at hg
    split at hg
    · exact absurd hg (by simp)
    · rename_i buf _
      split at hg
      · exact absurd hg (by simp)
      · rename_i ds1 hd
        injection hg with hg
        subst hg
        exact hnil buf ds1 hd
  · simp

/-- What a successful `prepare` has done. -/
theorem prepare_ok (env : Env) (c : templateContext) (h : prepare env = Res.ok c) :
    ∃ pkgs target, env.parseDir (lit ".") = Except.ok pkgs ∧
      targetPkg pkgs none = some target ∧
      c.PackageName = target.Name ∧ c.FunctionName = env.functionName ∧
      c.TypeName = env.typeName ∧ c.NumPackages = c.Packages.length := by
  unfold prepare at h
  split at h
  · exact absurd h (by simp)
  · split at h
    · exact absurd h (by simp)
    · split at h
      · exact absurd h (by simp)
      · exact absurd h (by simp)
      · split at h
        · exact absurd h (by simp)
        · rename_i pkgs hp
          split at h
          · exact absurd h (by simp)
          · rename_i target ht
            injection h with h
            subst h
            exact ⟨pkgs, target, hp, ht, rfl, rfl, rfl, rfl⟩

/-- A failing `prepare` ends with `log.Fatalf` when the list of dep holds no
nil entry. -/
theorem prepare_not_panic (env : Env)
    (hnil : ∀ buf ds, env.decode buf = Except.ok ds → none ∉ ds) :
    prepare env ≠ Res.panic := by
  unfold prepare
  split
  · simp
  · split
    · simp
    · split
      · simp
      · rename_i h
        exact absurd h (locateLicenses_not_panic env _ _ (dependenciesOf_no_nil env _ _ hnil))
      · split
        · simp
        · split <;> simp

theorem targetPkg_some (pkgs : List (Str × Package)) :
    ∀ (start : Option Package) (target : Package), targetPkg pkgs start = some target →
      start = some target ∨
        ∃ q ∈ pkgs, HasSuffix q.1 (lit "_testing") = false ∧ q.2 = target := by
  induction pkgs with
  | nil => intro start target h; exact Or.inl h
  | cons q rest ih =>
    intro start target h
    obtain ⟨pkgName, pkg⟩ := q
    simp only [targetPkg] at h
    split at h
    · rcases ih start target h with h1 | ⟨q, hq, h1⟩
      · exact Or.inl h1
      · exact Or.inr ⟨q, List.mem_cons_of_mem _ hq, h1⟩
    · rename_i hs
      rcases ih (some pkg) target h with h1 | ⟨q, hq, h1⟩
      · injection h1 with h1
        exact Or.inr ⟨(pkgName, pkg), List.mem_cons_self _ _, by simpa using hs, h1⟩
      · exact Or.inr ⟨q, List.mem_cons_of_mem _ hq, h1⟩

theorem targetPkg_skipped (pkgs : List (Str × Package)) :
    ∀ (start : Option Package),
      (∀ q ∈ pkgs, HasSuffix q.1 (lit "_testing") = true) → targetPkg pkgs start = start := by
  induction pkgs with
  | nil => intro start _; rfl
  | cons q rest ih =>
    intro start h
    obtain ⟨pkgName, pkg⟩ := q
    have h1 : HasSuffix pkgName (lit "_testing") = true := h (pkgName, pkg) (List.mem_cons_self _ _)
    simp only [targetPkg, h1, if_true]
    exact ih start (fun q hq => h q (List.mem_cons_of_mem _ hq))

theorem prepare_no_target (env : Env)
    (h : ∀ pkgs, env.parseDir (lit ".") = Except.ok pkgs → targetPkg pkgs none = none) :
    ∀ c, prepare env ≠ Res.ok c := by
  intro c hp
  obtain ⟨pkgs, target, h1, h2, _⟩ := prepare_ok env c hp
  rw [h pkgs h1] at h2
  exact absurd h2 (by simp)

theorem prepare_fatal_of_no_target (env : Env)
    (h : ∀ pkgs, env.parseDir (lit ".") = Except.ok pkgs → targetPkg pkgs none = none)
    (hnil : ∀ buf ds, env.decode buf = Except.ok ds → none ∉ ds) :
    ∃ m, prepare env = Res.fatal m := by
  cases hp : prepare env with
  | fatal m => exact ⟨m, rfl⟩
  | panic => exact absurd hp (prepare_not_panic env hnil)
  | ok c => exact absurd hp (prepare_no_target env h c)

theorem main_of_prepare_not_ok (env : Env) (h : ∀ c, prepare env ≠ Res.ok c) :
    (main env).effects = [] ∧ (main env).exit ≠ Exit.ok := by
  unfold main
  split
  · exact ⟨rfl, by simp⟩
  · exact ⟨rfl, by simp⟩
  · rename_i c hc; exact absurd hc (h c)

theorem main_of_prepare_fatal (env : Env) (m : Str) (h : prepare env = Res.fatal m) :
    main env = { exit := Exit.fatal m, effects := [] } := by
  simp only [main, h]

theorem fileTmpl_congr (c1 c2 : templateContext)
    (hp : c1.PackageName = c2.PackageName) (hf : c1.FunctionName = c2.FunctionName)
    (ht : c1.TypeName = c2.TypeName) (hn : c1.NumPackages = c2.NumPackages)
    (hd : c1.Packages.map (fun d => d.ProjectRoot) = c2.Packages.map (fun d => d.ProjectRoot)) :
    fileTmpl c1 = fileTmpl c2 := by
  have he : ∀ (c : templateContext) (ps : List depEntry),
      ps.map (fileTmplEntry c) = (ps.map (fun d => d.ProjectRoot)).map (fun root =>
        lit "result = append(result, " ++ htmlEscaper c.TypeName ++ lit "\x7bPackage: \"" ++
          htmlEscaper root ++ lit "\", LicenseText: \"\"\x7d)\n\t") := by
    intro c ps
    rw [List.map_map]
    rfl
  unfold fileTmpl
  rw [he c1, he c2, hp, hf, ht, hn, hd]

/-! ## The package clause of the skeleton -/

theorem identChar_range (b : Nat) (h : (isLetter b || isDecimal b) = true) :
    (48 ≤ b ∧ b ≤ 57) ∨ (65 ≤ b ∧ b ≤ 90) ∨ b = 95 ∨ (97 ≤ b ∧ b ≤ 122) := by
  simp only [isLetter, isDecimal, Bool.or_eq_true, Bool.and_eq_true, decide_eq_true_eq,
    beq_iff_eq] at h
  omega

theorem decodeRune_ascii (b : Nat) (t : Str) (h : b < 128) : DecodeRune (b :: t) = (b, 1) := by
  have hf : first b = none := by
    unfold first
    rw [if_neg (by omega), if_neg (by omega), if_neg (by omega), if_neg (by omega),
      if_neg (by omega), if_neg (by omega), if_neg (by omega), if_neg (by omega)]
  have hs : b < RuneSelf := h
  simp only [DecodeRune, hf, if_pos hs]

theorem htmlReplacer_ident :
    ∀ (fuel : Nat) (s : Str), s.length ≤ fuel →
      (∀ b ∈ s, (isLetter b || isDecimal b) = true) → htmlReplacer fuel s = s := by
  intro fuel
  induction fuel with
  | zero =>
    intro s hl _
    have : s = [] := List.eq_nil_of_length_eq_zero (by omega)
    subst this
    rfl
  | succ fuel ih =>
    intro s hl hs
    rcases s with _ | ⟨b, t⟩
    · rfl
    · have hb := identChar_range b (hs b (List.mem_cons_self _ _))
      have hd := decodeRune_ascii b t (by omega)
      have ht : htmlReplacementTable b = [] := by
        unfold htmlReplacementTable
        rw [if_neg (by omega), if_neg (by omega), if_neg (by omega), if_neg (by omega),
          if_neg (by omega), if_neg (by omega), if_neg (by omega)]
      have hrest := ih t (by simpa using hl) (fun c hc => hs c (List.mem_cons_of_mem _ hc))
      simp only [htmlReplacer, hd, ht, ne_eq, not_true_eq_false, and_false, if_false,
        List.take_succ_cons, List.take_zero, List.drop_succ_cons, List.drop_zero, hrest,
        List.singleton_append]

/-- The HTML escaper leaves an identifier as it is. -/
theorem htmlEscaper_ident (s : Str) (h : IsIdentifier s) : htmlEscaper s = s :=
  htmlReplacer_ident s.length s (le_refl _) h.2.1

theorem scanIdentifier_append (c : Nat) (rest : Str) (hc : (isLetter c || isDecimal c) = false) :
    ∀ (s : Str), (∀ b ∈ s, (isLetter b || isDecimal b) = true) →
      scanIdentifier (s ++ c :: rest) = (s, c :: rest) := by
  intro s
  induction s with
  | nil =>
    intro _
    simp only [List.nil_append, scanIdentifier, hc]
    rfl
  | cons b t ih =>
    intro hs
    have hb := hs b (List.mem_cons_self _ _)
    have ht := ih (fun x hx => hs x (List.mem_cons_of_mem _ hx))
    show scanIdentifier (b :: (t ++ c :: rest)) = (b :: t, c :: rest)
    simp only [scanIdentifier, hb, if_true, ht]

theorem isLetter_range (b : Nat) (h : isLetter b = true) :
    (65 ≤ b ∧ b ≤ 90) ∨ b = 95 ∨ (97 ≤ b ∧ b ≤ 122) := by
  simp only [isLetter, Bool.or_eq_true, Bool.and_eq_true, decide_eq_true_eq,
    beq_iff_eq] at h
  omega

/-- Scanning a word of letters and digits that is followed by an ASCII
character of another kind. -/
theorem scanTokens_word (fuel : Nat) (w : Str) (c : Nat) (rest : Str) (semi : Bool)
    (hw1 : isLetter (w.headD 0) = true) (hw : ∀ b ∈ w, (isLetter b || isDecimal b) = true)
    (hc : (isLetter c || isDecimal c) = false) (hc2 : c < 128) :
    scanTokens (fuel + 1) (w ++ c :: rest) semi =
      if w ∈ keywords then
        (scanTokens fuel (c :: rest)
          (w = lit "break" ∨ w = lit "continue" ∨ w = lit "fallthrough" ∨
            w = lit "return")).map (fun l => Token.KEYWORD w :: l)
      else (scanTokens fuel (c :: rest) true).map (fun l => Token.IDENT w :: l) := by
  rcases w with _ | ⟨b, t⟩
  · exact absurd hw1 (by decide)
  · have hb : isLetter b = true := hw1
    have hr := isLetter_range b hb
    have hsc : scanIdentifier (b :: (t ++ c :: rest)) = (b :: t, c :: rest) :=
      scanIdentifier_append c rest hc (b :: t) hw
    have h1 : ¬ (b = 32 ∨ b = 9 ∨ b = 13 ∨ (b = 10 ∧ semi = false)) := by omega
    have h2 : ¬ b = 10 := by omega
    have h3 : ¬ (c :: rest).length ≥ (b :: (t ++ c :: rest)).length := by
      simp only [List.length_cons, List.length_append]; omega
    have h4 : ¬ (c :: rest).headD 0 ≥ RuneSelf := by
      simp only [List.headD_cons, RuneSelf]; omega
    show scanTokens (fuel + 1) (b :: (t ++ c :: rest)) semi = _
    simp only [scanTokens, if_neg h1, if_neg h2, hb, if_true, hsc, if_neg h3, if_neg h4]

theorem scanTokens_space (fuel : Nat) (t : Str) (semi : Bool) :
    scanTokens (fuel + 1) (32 :: t) semi = scanTokens fuel t semi := by
  simp only [scanTokens, true_or, if_true]

theorem scanTokens_newline (fuel : Nat) (t : Str) :
    scanTokens (fuel + 1) (10 :: t) true =
      (scanTokens fuel t false).map (fun l => Token.SEMICOLON :: l) := by
  simp [scanTokens]

/-- The tokens of a text that begins with a package clause. -/
theorem scanTokens_package (name rest : Str) (hn : IsIdentifier name) (fuel : Nat)
    (toks : List Token)
    (h : scanTokens (fuel + 4) (lit "package " ++ (name ++ 10 :: rest)) false = some toks) :
    ∃ toks1, toks = Token.KEYWORD (lit "package") :: Token.IDENT name ::
      Token.SEMICOLON :: toks1 := by
  obtain ⟨hn1, hn2, hn3⟩ := hn
  rw [show lit "package " ++ (name ++ 10 :: rest) = lit "package" ++ 32 :: (name ++ 10 :: rest)
      from rfl,
    scanTokens_word (fuel + 3) (lit "package") 32 _ false (by decide) (by decide) (by decide)
      (by omega),
    if_pos (by decide), scanTokens_space,
    scanTokens_word (fuel + 1) name 10 rest _ hn1 hn2 (by decide) (by omega), if_neg hn3,
    scanTokens_newline] at h
  simp only [Option.map_map, Option.map_eq_some'] at h
  obtain ⟨l, _, hl⟩ := h
  exact ⟨l, hl.symm⟩

theorem parseTokens_name (p name : Str) (toks1 : List Token) (file : File)
    (h : parseTokens (Token.KEYWORD p :: Token.IDENT name :: Token.SEMICOLON :: toks1) =
      some file) : file.Name = name := by
  unfold parseTokens at h
  split at h
  · rename_i heq
    injection heq with _ heq
    injection heq with h2 heq
    injection h2 with h2
    subst h2
    split at h
    · exact absurd h (by simp)
    · split at h
      · split at h
        · exact absurd h (by simp)
        · split at h
          · injection h with h
            subst h
            rfl
          · exact absurd h (by simp)
      · exact absurd h (by simp)
  · exact absurd h (by simp)

/-- The text of the skeleton begins with the package clause of the chosen
package. -/
theorem fileTmpl_package (c : templateContext) (hn : IsIdentifier c.PackageName) :
    ∃ rest, fileTmpl c = lit "package " ++ (c.PackageName ++ 10 :: rest) := by
  unfold fileTmpl
  rw [htmlEscaper_ident _ hn]
  simp only [List.append_assoc]
  exact ⟨_, rfl⟩

/-- The tree that go/parser builds for the skeleton has the chosen package
name in its package clause. -/
theorem ParseFile_package (c : templateContext) (hn : IsIdentifier c.PackageName)
    (file : File) (h : ParseFile (fileTmpl c) = some file) : file.Name = c.PackageName := by
  obtain ⟨rest, hr⟩ := fileTmpl_package c hn
  rw [hr] at h
  unfold ParseFile at h
  split at h
  · exact absurd h (by simp)
  · rename_i toks ht
    have hl : (lit "package " ++ (c.PackageName ++ 10 :: rest)).length + 1 =
        (c.PackageName.length + rest.length + 6) + 4 := by
      simp only [List.length_append, List.length_cons]
      have : (lit "package ").length = 8 := by decide
      omega
    rw [hl] at ht
    obtain ⟨toks1, ht1⟩ := scanTokens_package c.PackageName rest hn _ toks ht
    rw [ht1] at h
    exact parseTokens_name _ _ _ _ h

/-- A tree that a run prints is a tree that `generate` returned. -/
theorem main_fprint (env : Env) (dst : Dest) (file : File)
    (h : Effect.fprint dst file ∈ (main env).effects) :
    ∃ c, prepare env = Res.ok c ∧ generate env c = Res.ok file := by
  unfold main at h
  split at h
  · simp at h
  · simp at h
  · rename_i c hc
    split at h
    · simp at h
    · simp at h
    · rename_i file0 hg
      refine ⟨c, hc, ?_⟩
      unfold output at h
      split at h
      · simp only [List.mem_singleton] at h
        injection h with _ h
        rw [h]; exact hg
      · split at h
        · simp at h
        · simp only [List.mem_cons, List.mem_singleton, List.mem_nil_iff, or_false] at h
          rcases h with h | h
          · exact absurd h (by simp)
          · injection h with _ h
            rw [h]; exact hg

/-! ## The claims -/

theorem generate_frame (env : Env) (c : templateContext) (file : File)
    (h : generate env c = Res.ok file) :
    ∃ skeleton, env.parseFile (fileTmpl c) = Except.ok skeleton ∧
      file.Name = skeleton.Name ∧ List.Forall₂ DeclFrame skeleton.Decls file.Decls := by
  unfold generate at h
  split at h
  · exact absurd h (by simp)
  · rename_i skeleton hs
    exact ⟨skeleton, hs, frame_of_inject _ _ _ _ _ _ h⟩

theorem res_isOk {α : Type} (r : Res α) (h : r.isOk = true) : ∃ a, r = Res.ok a := by
  cases r with
  | ok a => exact ⟨a, rfl⟩
  | fatal m => exact absurd h (by simp [Res.isOk])
  | panic => exact absurd h (by simp [Res.isOk])

/-- Claim C7 (frame of the injector): when the injection into a tree
succeeds, the package clause is unchanged; the declarations correspond one to
one, in order, and a declaration is unchanged or is a function whose body
changed; the type declarations are the same at every position; the
statements of the generated function correspond one to one, in order, so
their number is the same; a statement is unchanged or is an assignment whose
right-hand sides correspond one to one; a right-hand side is unchanged or is
an `append` call that differs only in the value of the second element
(`LicenseText`) of the composite literal that is its last argument; and the
first element (`Package`) of every record is the same before and after. -/
theorem inject_frame (tbl : Nat → Bool) (readFile : Str → Except Str Str)
    (pkgMap : List depEntry) (functionName : Str) (file file1 : File)
    (h : inject tbl readFile pkgMap functionName file = Res.ok file1) :
    file1.Name = file.Name ∧
    List.Forall₂ DeclFrame file.Decls file1.Decls ∧
    file1.Decls.map typeOf = file.Decls.map typeOf ∧
    List.Forall₂ StmtFrame (bodyOf file functionName) (bodyOf file1 functionName) ∧
    (bodyOf file1 functionName).length = (bodyOf file functionName).length ∧
    (bodyOf file1 functionName).map packageElts =
      (bodyOf file functionName).map packageElts := by
  have h1 := frame_of_inject tbl readFile pkgMap functionName file file1 h
  have h2 := frame_of_inject_body tbl readFile pkgMap functionName file file1 h
  exact ⟨h1.1, h1.2, map_eq_of_forall₂ DeclFrame typeOf typeOf_frame _ _ h1.2, h2,
    h2.length_eq.symm, map_eq_of_forall₂ StmtFrame packageElts packageElts_frame _ _ h2⟩

/-- Claim C8 (stream sentinel): with the destination `-` every action of the
run on a destination is a print to standard output, no file is opened, and a
generated tree is printed to standard output; with any other destination a
generated tree leads to exactly one `os.OpenFile` with create and truncate on
that path, followed, when it succeeds, by the print into that file. -/
theorem stream_sentinel (env : Env) :
    (env.outputFilePath = lit "-" →
      (∀ e ∈ (main env).effects, ∃ file, e = Effect.fprint Dest.stdout file) ∧
      (∀ c file, prepare env = Res.ok c → generate env c = Res.ok file →
        main env = { exit := Exit.ok, effects := [Effect.fprint Dest.stdout file] })) ∧
    (env.outputFilePath ≠ lit "-" →
      ∀ c file, prepare env = Res.ok c → generate env c = Res.ok file →
        (env.openFile env.outputFilePath = Except.ok () →
          main env = { exit := Exit.ok,
                       effects := [Effect.openFile env.outputFilePath true,
                                   Effect.fprint (Dest.file env.outputFilePath) file] }) ∧
        (∀ err, env.openFile env.outputFilePath = Except.error err →
          main env = { exit := Exit.fatal (lit "Failed to open output file for writing: " ++ err),
                       effects := [Effect.openFile env.outputFilePath false] })) := by
  refine ⟨fun hout => ⟨?_, ?_⟩, fun hout c file hp hg => ⟨?_, ?_⟩⟩
  · intro e he
    unfold main at he
    split at he
    · simp at he
    · simp at he
    · split at he
      · simp at he
      · simp at he
      · rename_i file _
        simp only [output, hout, if_true, List.mem_singleton] at he
        exact ⟨file, he⟩
  · intro c file hp hg
    simp only [main, hp, hg, output, hout, if_true]
  · intro ho
    simp only [main, hp, hg, output, if_neg hout, ho]
  · intro err ho
    simp only [main, hp, hg, output, if_neg hout, ho]

/-- Claim C9 as amended (target package).  A run that reaches the template
has chosen a package that `parser.ParseDir` finds in the current directory
`.` and whose map key does not end in `_testing`, and the name of that
package is the package name of the generated file: for a name that is an
identifier, the text of the skeleton begins with `package`, the name and a
line break, the tree that go/parser builds for the skeleton has the name in
its package clause, and so has every tree that the run prints when its parser
agrees with go/parser on the skeleton.  When the current directory cannot be
parsed, holds no package, or holds only packages the selection skips, no
template context is built, nothing is written and the run does not end
normally; it ends in `log.Fatalf` when the list of dep holds no nil entry. -/
theorem target_package (env : Env) :
    (∀ c, prepare env = Res.ok c →
      ∃ pkgs, env.parseDir (lit ".") = Except.ok pkgs ∧
        ∃ q ∈ pkgs, HasSuffix q.1 (lit "_testing") = false ∧ c.PackageName = q.2.Name ∧
          (IsIdentifier q.2.Name →
            (∃ rest, fileTmpl c = lit "package " ++ q.2.Name ++ lit "\n" ++ rest) ∧
            (∀ skeleton, ParseFile (fileTmpl c) = some skeleton →
              skeleton.Name = q.2.Name) ∧
            ((∀ skeleton, env.parseFile (fileTmpl c) = Except.ok skeleton →
                ParseFile (fileTmpl c) = some skeleton) →
              ∀ dst file, Effect.fprint dst file ∈ (main env).effects →
                file.Name = q.2.Name))) ∧
    ((∀ pkgs, env.parseDir (lit ".") = Except.ok pkgs →
        ∀ q ∈ pkgs, HasSuffix q.1 (lit "_testing") = true) →
      (∀ c, prepare env ≠ Res.ok c) ∧ (main env).effects = [] ∧
      (main env).exit ≠ Exit.ok ∧
      ((∀ buf ds, env.decode buf = Except.ok ds → none ∉ ds) →
        ∃ m, prepare env = Res.fatal m ∧
          main env = { exit := Exit.fatal m, effects := [] })) := by
  constructor
  · intro c hc
    obtain ⟨pkgs, target, hp, ht, hn, _⟩ := prepare_ok env c hc
    rcases targetPkg_some pkgs none target ht with h | ⟨q, hq, hs, he⟩
    · exact absurd h (by simp)
    · have hname : c.PackageName = q.2.Name := by rw [hn, he]
      refine ⟨pkgs, hp, q, hq, hs, hname, ?_⟩
      intro hid
      have hid1 : IsIdentifier c.PackageName := by rw [hname]; exact hid
      refine ⟨?_, ?_, ?_⟩
      · obtain ⟨rest, hr⟩ := fileTmpl_package c hid1
        refine ⟨rest, ?_⟩
        rw [hr, hname]
        simp only [List.append_assoc]
        rfl
      · intro skeleton hsk
        rw [← hname]
        exact ParseFile_package c hid1 skeleton hsk
      · intro hagree dst file hmem
        obtain ⟨c1, hc1, hg⟩ := main_fprint env dst file hmem
        rw [hc] at hc1
        injection hc1 with hc1
        subst hc1
        obtain ⟨skeleton, hs1, hn1, _⟩ := generate_frame env c file hg
        rw [hn1, ← hname]
        exact ParseFile_package c hid1 skeleton (hagree skeleton hs1)
  · intro h
    have h1 : ∀ pkgs, env.parseDir (lit ".") = Except.ok pkgs → targetPkg pkgs none = none :=
      fun pkgs hp => targetPkg_skipped pkgs none (h pkgs hp)
    have h2 := prepare_no_target env h1
    have h3 := main_of_prepare_not_ok env h2
    refine ⟨h2, h3.1, h3.2, ?_⟩
    intro hnil
    obtain ⟨m, hm⟩ := prepare_fatal_of_no_target env h1 hnil
    exact ⟨m, hm, main_of_prepare_fatal env m hm⟩

/-- Claim C10 (license contents never reach the template): two runs that
reach the template with the same dependency names in the same order and the
same package, function and type names execute the template to the same text,
whatever the license paths and the contents of the license files are; and
when both runs use the same parser and generate a tree, both trees are the
parsed skeleton up to the `LicenseText` values that the injector sets. -/
theorem skeleton_ignores_licenses (env1 env2 : Env) (c1 c2 : templateContext)
    (h1 : prepare env1 = Res.ok c1) (h2 : prepare env2 = Res.ok c2)
    (hnames : c1.Packages.map (fun d => d.ProjectRoot) =
      c2.Packages.map (fun d => d.ProjectRoot))
    (hpkg : c1.PackageName = c2.PackageName)
    (hfunc : env1.functionName = env2.functionName)
    (htype : env1.typeName = env2.typeName) :
    fileTmpl c1 = fileTmpl c2 ∧
    (∀ file1 file2, env1.parseFile = env2.parseFile →
      generate env1 c1 = Res.ok file1 → generate env2 c2 = Res.ok file2 →
      ∃ skeleton, env1.parseFile (fileTmpl c1) = Except.ok skeleton ∧
        file1.Name = skeleton.Name ∧ file2.Name = skeleton.Name ∧
        List.Forall₂ DeclFrame skeleton.Decls file1.Decls ∧
        List.Forall₂ DeclFrame skeleton.Decls file2.Decls) := by
  obtain ⟨_, _, _, _, _, hf1, ht1, hn1⟩ := prepare_ok env1 c1 h1
  obtain ⟨_, _, _, _, _, hf2, ht2, hn2⟩ := prepare_ok env2 c2 h2
  have hlen : c1.Packages.length = c2.Packages.length := by
    have := congrArg List.length hnames
    simpa using this
  have htext : fileTmpl c1 = fileTmpl c2 :=
    fileTmpl_congr c1 c2 hpkg (by rw [hf1, hf2, hfunc]) (by rw [ht1, ht2, htype])
      (by rw [hn1, hn2, hlen]) hnames
  refine ⟨htext, ?_⟩
  intro file1 file2 hparse hg1 hg2
  obtain ⟨sk1, hs1, hname1, hfr1⟩ := generate_frame env1 c1 file1 hg1
  obtain ⟨sk2, hs2, hname2, hfr2⟩ := generate_frame env2 c2 file2 hg2
  rw [← hparse, ← htext, hs1] at hs2
  injection hs2 with hs2
  subst hs2
  exact ⟨sk1, hs1, hname1, hname2, hfr1, hfr2⟩

/-- Witness of claim C1: a content with a quote, a backslash, a line break, a
control character, a NUL byte, the runes U+20AC and U+1F600, and two bytes
that are no valid UTF-8. -/
theorem Unquote_Quote_witness :
    IsBytes [34, 92, 10, 7, 0, 0xE2, 0x82, 0xAC, 0xF0, 0x9F, 0x98, 0x80, 0xFF, 0xC3] ∧
    Unquote (Quote (fun _ => false)
        [34, 92, 10, 7, 0, 0xE2, 0x82, 0xAC, 0xF0, 0x9F, 0x98, 0x80, 0xFF, 0xC3]) =
      some [34, 92, 10, 7, 0, 0xE2, 0x82, 0xAC, 0xF0, 0x9F, 0x98, 0x80, 0xFF, 0xC3] :=
  ⟨by decide, Unquote_Quote (fun _ => false) _ (by decide)⟩

/-- Witness of claim C7 on `fileExample`. -/
theorem inject_frame_witness :
    ∃ file1, inject (fun _ => true) (ReadFile envExample) ctxExample.Packages
        (lit "getLicenseInfos") fileExample = Res.ok file1 ∧
      file1.Name = fileExample.Name ∧
      (bodyOf file1 (lit "getLicenseInfos")).length = 2 ∧
      (bodyOf file1 (lit "getLicenseInfos")).map packageElts =
        (bodyOf fileExample (lit "getLicenseInfos")).map packageElts := by
  obtain ⟨file1, h⟩ := res_isOk (inject (fun _ => true) (ReadFile envExample)
    ctxExample.Packages (lit "getLicenseInfos") fileExample) (by decide!)
  have hf := inject_frame _ _ _ _ _ _ h
  exact ⟨file1, h, hf.1, hf.2.2.2.2.1, hf.2.2.2.2.2⟩

/-- Witness of claim C8: the example of the specification printed to
standard output, and written to the default path. -/
theorem stream_sentinel_witness :
    (envStdout.outputFilePath = lit "-" ∧
      ∃ file, main envStdout =
        { exit := Exit.ok, effects := [Effect.fprint Dest.stdout file] }) ∧
    (envExample.outputFilePath ≠ lit "-" ∧
      ∃ file, main envExample =
        { exit := Exit.ok,
          effects := [Effect.openFile (lit "licenses_generated.go") true,
                      Effect.fprint (Dest.file (lit "licenses_generated.go")) file] }) := by
  have hp1 : prepare envStdout = Res.ok ctxExample := by decide!
  have hp2 : prepare envExample = Res.ok ctxExample := by decide!
  obtain ⟨file1, hg1⟩ := res_isOk (generate envStdout ctxExample) (by decide!)
  obtain ⟨file2, hg2⟩ := res_isOk (generate envExample ctxExample) (by decide!)
  have ho1 : envStdout.outputFilePath = lit "-" := by decide
  have ho2 : envExample.outputFilePath ≠ lit "-" := by decide
  exact ⟨⟨ho1, file1, ((stream_sentinel envStdout).1 ho1).2 ctxExample file1 hp1 hg1⟩,
    ⟨ho2, file2, ((stream_sentinel envExample).2 ho2 ctxExample file2 hp2 hg2).1 rfl⟩⟩

theorem goParseFile_ok (src : Str) (file : File) (h : goParseFile src = Except.ok file) :
    ParseFile src = some file := by
  unfold goParseFile at h
  split at h
  · injection h with h
    subst h
    assumption
  · exact absurd h (by simp)

/-- Witness of claim C9 as amended: in the example of the specification the
package `main` of the current directory is chosen, the skeleton begins with
its package clause and every printed tree carries it; a current directory
with only `main_testing` stops the run in `log.Fatalf` with nothing written. -/
theorem target_package_witness :
    (prepare envExample = Res.ok ctxExample ∧ IsIdentifier (lit "main") ∧
      (∃ rest, fileTmpl ctxExample = lit "package " ++ lit "main" ++ lit "\n" ++ rest) ∧
      (∀ dst file, Effect.fprint dst file ∈ (main envExample).effects →
        file.Name = lit "main")) ∧
    (∃ m, prepare envNoTarget = Res.fatal m ∧
      main envNoTarget = { exit := Exit.fatal m, effects := [] }) := by
  have hp : prepare envExample = Res.ok ctxExample := by decide!
  have hid : IsIdentifier (lit "main") := by decide
  constructor
  · obtain ⟨pkgs, _, q, _, _, hname, hrest⟩ := (target_package envExample).1 ctxExample hp
    have hq : q.2.Name = lit "main" := hname.symm
    rw [hq] at hrest
    obtain ⟨htext, _, hprint⟩ := hrest hid
    have hagree : ∀ skeleton, envExample.parseFile (fileTmpl ctxExample) = Except.ok skeleton →
        ParseFile (fileTmpl ctxExample) = some skeleton := by
      intro skeleton h
      have hpf : envExample.parseFile = goParseFile := rfl
      rw [hpf] at h
      exact goParseFile_ok _ skeleton h
    exact ⟨hp, hid, htext, hprint hagree⟩
  · have hskip : ∀ pkgs, envNoTarget.parseDir (lit ".") = Except.ok pkgs →
        ∀ q ∈ pkgs, HasSuffix q.1 (lit "_testing") = true := by
      intro pkgs h q hq
      have h1 : envNoTarget.parseDir (lit ".") =
          Except.ok [(lit "main_testing", { Name := lit "main_testing" })] := rfl
      rw [h1] at h
      injection h with h
      subst h
      rw [List.mem_singleton] at hq
      subst hq
      decide
    have hnil : ∀ buf ds, envNoTarget.decode buf = Except.ok ds → none ∉ ds := by
      intro buf ds h
      have h1 : envNoTarget.decode buf =
          Except.ok [some { ProjectRoot := lit "a/b", LicenseFile := [] },
                     some { ProjectRoot := lit "c/d", LicenseFile := [] }] := rfl
      rw [h1] at h
      injection h with h
      subst h
      decide
    exact ((target_package envNoTarget).2 hskip).2.2.2 hnil

/-- Counterexample to claim C9 as stated: with the output path
`out/licenses.go` the destination directory is `out`, which holds the package
`other` only, and the package name of the generated file is `main`, the
package of the current directory. -/
theorem package_not_from_destination :
    prepare envSubdir = Res.ok ctxExample ∧
    destinationDir envSubdir.outputFilePath = lit "out" ∧
    ¬ ∃ pkgs, envSubdir.parseDir (destinationDir envSubdir.outputFilePath) = Except.ok pkgs ∧
        ∃ q ∈ pkgs, ctxExample.PackageName = q.2.Name := by
  refine ⟨by decide!, by decide!, ?_⟩
  rintro ⟨pkgs, h, q, hq, hn⟩
  have h1 : envSubdir.parseDir (destinationDir envSubdir.outputFilePath) =
      Except.ok [(lit "other", { Name := lit "other" })] := by
    have hd : destinationDir envSubdir.outputFilePath = lit "out" := by decide!
    rw [hd]
    rfl
  rw [h1] at h
  injection h with h
  subst h
  rw [List.mem_singleton] at hq
  subst hq
  exact absurd hn (by decide)

/-- Witness of claim C10: the two example environments differ in the license
paths and in the contents of the license files. -/
theorem skeleton_ignores_licenses_witness :
    prepare envExample = Res.ok ctxExample ∧ prepare envExampleOther = Res.ok ctxExampleOther ∧
    ctxExample.Packages.map (fun d => d.LicenseFile) ≠
      ctxExampleOther.Packages.map (fun d => d.LicenseFile) ∧
    fileTmpl ctxExample = fileTmpl ctxExampleOther :=
  ⟨by decide!, by decide!, by decide,
    (skeleton_ignores_licenses envExample envExampleOther ctxExample ctxExampleOther
      (by decide!) (by decide!) (by decide) (by decide) (by decide) (by decide)).1⟩

/-! ## Failure paths of the injector -/

/-- An error of `getDependencies` leaves the run with no dependencies and
does not stop it. -/
theorem dependenciesOf_error (env : Env) (rootDir : List Str) (depPath err : Str)
    (h : getDependencies env rootDir depPath = Except.error err) :
    dependenciesOf env rootDir depPath = [] := by
  simp only [dependenciesOf, h]

/-- A slot whose decoded name is no key of the dependency map makes the
injector panic: the lookup yields nil and `.LicenseFile` dereferences it. -/
theorem injectExpr_unknown_name (tbl : Nat → Bool) (readFile : Str → Except Str Str)
    (pkgMap : List depEntry) (args : List Expr) (typ key0 : Expr) (kind0 : Kind)
    (value0 projectRoot : Str) (elts1 : List Expr)
    (hlast : args.getLast? = some (Expr.CompositeLit typ
      (Expr.KeyValueExpr key0 (Expr.BasicLit kind0 value0) :: elts1)))
    (hname : Unquote value0 = some projectRoot)
    (hmiss : pkgMapLookup pkgMap projectRoot = none) :
    injectExpr tbl readFile pkgMap (Expr.CallExpr (Expr.Ident (lit "append")) args) =
      Res.panic := by
  simp only [injectExpr, if_true, hlast, hname, hmiss]

/-- A slot whose record has an empty `LicenseFile` stops the run with
`log.Fatalf`: `ioutil.ReadFile` fails on the empty name. -/
theorem injectExpr_no_license (tbl : Nat → Bool) (env : Env)
    (pkgMap : List depEntry) (args : List Expr) (typ key0 : Expr) (kind0 : Kind)
    (value0 projectRoot : Str) (elts1 : List Expr) (dep : depEntry)
    (hlast : args.getLast? = some (Expr.CompositeLit typ
      (Expr.KeyValueExpr key0 (Expr.BasicLit kind0 value0) :: elts1)))
    (hname : Unquote value0 = some projectRoot)
    (hdep : pkgMapLookup pkgMap projectRoot = some dep)
    (hfile : dep.LicenseFile = []) :
    injectExpr tbl (ReadFile env) pkgMap (Expr.CallExpr (Expr.Ident (lit "append")) args) =
      Res.fatal (lit "Failed to read license of " ++ projectRoot ++ lit ": " ++
        lit "open : no such file or directory") := by
  simp only [injectExpr, if_true, hlast, hname, hdep, ReadFile, hfile]

/-! ## Runs on concrete inputs -/

/-- The example of the specification: the run on the dependencies `a/b` and
`c/d` ends normally and prints one tree, into the default path; its
`Package` literals decode to the two names and its `LicenseText` literals to
the contents of the two license files, in order. -/
theorem example_run :
    (main envExample).exit = Exit.ok ∧
    (printed (main envExample)).map (fun p =>
        (p.1, packageNames (bodyOf p.2 (lit "getLicenseInfos")),
          licenseTexts (bodyOf p.2 (lit "getLicenseInfos")))) =
      [(Dest.file (lit "licenses_generated.go"),
        [some (lit "a/b"), some (lit "c/d")],
        [some (lit "MIT License\nCopyright \"X\""), some (lit "BSD\\\\License")])] := by
  decide!

/-- Claim C2 at the dependency name `a+b`: the template writes the name
through the HTML escaper, the skeleton holds the literal `"a&#43;b"`, and the
`Package` literal of the one record decodes to `a&#43;b`, not to `a+b`. -/
theorem skeleton_package_literal_escaped :
    fileTmplEntry ctxPlus { ProjectRoot := lit "a+b", LicenseFile := [] } =
      lit "result = append(result, licenseInfo\x7bPackage: \"a&#43;b\", LicenseText: \"\"\x7d)\n\t" ∧
    (ParseFile (fileTmpl ctxPlus)).map
        (fun file => packageNames (bodyOf file (lit "getLicenseInfos"))) =
      some [some (lit "a&#43;b")] ∧
    lit "a&#43;b" ≠ lit "a+b" := by
  decide!

/-- Claim C3 at one dependency `a+b` with a readable license file: the run
ends in a run-time panic and hands no tree to the printer. -/
theorem run_with_plus_panics :
    prepare envPlus = Res.ok ctxPlus ∧
    ReadFile envPlus (lit "/p/vendor/a+b/LICENSE") = Except.ok (lit "MIT License") ∧
    (main envPlus).exit = Exit.panic ∧ (main envPlus).effects.length = 0 := by
  refine ⟨by decide!, rfl, by decide!, by decide!⟩

/-- Claim C4 at the dependencies `A` and `\x41`, of which only `A` has a
license file: the run ends normally and writes a tree whose two records both
decode to package `A` with the license text of `A`. -/
theorem run_with_missing_license_succeeds :
    (match prepare envAlias with
      | Res.ok c => c.Packages.map (fun d => (d.ProjectRoot, d.LicenseFile))
      | _ => []) =
      [(lit "A", lit "/p/vendor/A/LICENSE"), (lit "\\x41", [])] ∧
    (main envAlias).exit = Exit.ok ∧
    (printed (main envAlias)).map (fun p =>
        (p.1, packageNames (bodyOf p.2 (lit "getLicenseInfos")),
          licenseTexts (bodyOf p.2 (lit "getLicenseInfos")))) =
      [(Dest.file (lit "licenses_generated.go"),
        [some (lit "A"), some (lit "A")],
        [some (lit "MIT License"), some (lit "MIT License")])] := by
  decide!

/-- Claim C5 when `dep status --json` fails: `getDependencies` returns an
error, and the run ends normally after opening the destination and printing a
tree whose function body holds no record. -/
theorem run_with_failing_dep_writes_output :
    (getDependencies envDepFails [lit "p"] (lit "/usr/bin/dep")).toBool = false ∧
    (main envDepFails).exit = Exit.ok ∧
    (main envDepFails).effects.length = 2 ∧
    (printed (main envDepFails)).map (fun p =>
        (p.1, (bodyOf p.2 (lit "getLicenseInfos")).length,
          packageNames (bodyOf p.2 (lit "getLicenseInfos")))) =
      [(Dest.file (lit "licenses_generated.go"), 2, [])] := by
  decide!

/-- Claim C6 at the dependency `a+b`: the name decoded from the slot,
`a&#43;b`, is no key of the dependency map, and the injection ends in a
run-time panic, not in `log.Fatalf`. -/
theorem unknown_dependency_panics :
    (ParseFile (fileTmpl ctxPlus)).map
        (fun file => packageNames (bodyOf file (lit "getLicenseInfos"))) =
      some [some (lit "a&#43;b")] ∧
    pkgMapLookup ctxPlus.Packages (lit "a&#43;b") = none ∧
    (generate envPlus ctxPlus).isPanic = true ∧
    (generate envPlus ctxPlus).isOk = false := by
  decide!

/-- A nil entry in the list of dep: on the JSON list `[null]` the run panics
at line 74, before the current directory is inspected, and writes nothing. -/
theorem run_with_null_entry_panics :
    prepare envNullEntry = Res.panic ∧ (main envNullEntry).exit = Exit.panic ∧
    (main envNullEntry).effects.length = 0 := by
  decide!

end Licensed
